import Mathlib

/-!
Verification of the issue-tracker service layer (Go sources under
`internal/issues` plus the service/schema files) against its natural-language
specification.

Modelling conventions (shallow embedding):
* Go strings are modelled as `List Char` (`Str`); `strings.TrimSpace` and
  `strings.ToLower` are modelled over ASCII (`goTrim`, `goToLower`), which is
  what every identifier and keyword in this code base uses.
* The SQLite store is a list of rows (`Store`); `getIssueByID` models
  `SELECT ... WHERE id = ?` (first matching row), `applyWhere`/`affectedRows`
  model `UPDATE ... WHERE id = ? [AND version = ?]` together with
  `RowsAffected`.  The `PRIMARY KEY` constraint of `schema.sql` is carried as
  the hypothesis `uniqueIDs` where a theorem needs it.
* Each service operation runs in one transaction that commits only on
  success, so an operation is a function `Store → Except Err (Issue × Store)`:
  an `.error` outcome leaves the store untouched by construction, exactly as
  the `defer tx.Rollback()` discipline does in the source.
* `CURRENT_TIMESTAMP` is an explicit `now : Nat` parameter; `crypto/rand`
  draws are an explicit oracle `draws : Nat → Nat` (attempt index ↦ draw);
  `randomIssueNumber` embeds the
  range contract of `rand.Int(rand.Reader, big.NewInt(900000))` via `% 900000`.
-/

namespace IssueTracker

/-- Go strings, modelled as lists of characters. -/
abbrev Str := List Char

/-- ASCII decimal digit (`0`-`9`), by code point. -/
def isDigitChar (c : Char) : Bool := 48 ≤ c.toNat && c.toNat ≤ 57

/-- Character class of the regexes `^[a-z0-9]{3}$` / `^[a-z0-9]{3}-[0-9]+$`. -/
def isLowerAlnumChar (c : Char) : Bool :=
  (97 ≤ c.toNat && c.toNat ≤ 122) || isDigitChar c

/-- White space as trimmed by `strings.TrimSpace` (ASCII part). -/
def isSpaceChar (c : Char) : Bool :=
  c.toNat = 32 || c.toNat = 9 || c.toNat = 10 || c.toNat = 13 ||
  c.toNat = 11 || c.toNat = 12

/-- `strings.TrimSpace`. -/
def goTrim (s : Str) : Str :=
  ((s.dropWhile isSpaceChar).reverse.dropWhile isSpaceChar).reverse

/-- `strings.ToLower` on one character (ASCII). -/
def lowerChar (c : Char) : Char :=
  if 65 ≤ c.toNat && c.toNat ≤ 90 then Char.ofNat (c.toNat + 32) else c

/-- `strings.ToLower`. -/
def goToLower (s : Str) : Str := s.map lowerChar

/-- `projectPrefixRe.MatchString`, i.e. `^[a-z0-9]{3}$`. -/
def projectPrefixMatches (s : Str) : Bool :=
  match s with
  | [a, b, c] => isLowerAlnumChar a && isLowerAlnumChar b && isLowerAlnumChar c
  | _ => false

/-- `issueIDRe.MatchString`, i.e. `^[a-z0-9]{3}-[0-9]+$`. -/
def issueIDMatches (s : Str) : Bool :=
  match s with
  | a :: b :: c :: d :: rest =>
      isLowerAlnumChar a && isLowerAlnumChar b && isLowerAlnumChar c &&
      d = '-' && !rest.isEmpty && rest.all isDigitChar
  | _ => false

/-- `strings.SplitN(s, "-", 2)`: the part before the first dash and the part
after it, or `none` when `s` has no dash (Go then returns a single part). -/
def splitFirstDash : Str → Option (Str × Str)
  | [] => none
  | c :: rest =>
    if c = '-' then some ([], rest)
    else (splitFirstDash rest).map (fun p => (c :: p.1, p.2))

/-- `projectPrefixFromIssueID`. -/
def projectPrefixFromIssueID (id : Str) : Option Str :=
  match splitFirstDash (goToLower (goTrim id)) with
  | none => none
  | some (p, _) => if projectPrefixMatches p then some p else none

/-! ### States, categories, errors (types.go, errors.go) -/

def sTodo : Str := "todo".toList
def sInProgress : Str := "in_progress".toList
def sBlocked : Str := "blocked".toList
def sDone : Str := "done".toList
def sCanceled : Str := "canceled".toList

def cProject : Str := "project".toList
def cWorkstream : Str := "workstream".toList
def cTask : Str := "task".toList

/-- The sentinel error kinds of `errors.go` that the service layer can
actually produce. -/
inductive ErrKind where
  | invalidInput
  | notFound
  | conflict
  | invalidStateTransition
deriving DecidableEq, Repr

/-- A typed error: the wrapped sentinel plus the detail message appended by
`fmt.Errorf`. -/
structure Err where
  kind : ErrKind
  msg : Str
deriving DecidableEq, Repr

/-! ### State machine (state_machine.go) -/

/-- Lookup in the `validTransitions` map literal: `validTransitions[f][t]`. -/
def transitionAllowed (f t : Str) : Bool :=
  if f = sTodo then t = sInProgress || t = sBlocked || t = sCanceled
  else if f = sInProgress then
    t = sBlocked || t = sDone || t = sTodo || t = sCanceled
  else if f = sBlocked then t = sTodo || t = sInProgress || t = sCanceled
  else if f = sDone then t = sTodo
  else if f = sCanceled then t = sTodo
  else false

/-- `IsValidState`: membership among the keys of `validTransitions`. -/
def IsValidState (s : Str) : Bool :=
  s = sTodo || s = sInProgress || s = sBlocked || s = sDone || s = sCanceled

/-- `ValidateTransition`: `none` means the transition is accepted. -/
def ValidateTransition (f t : Str) : Option Err :=
  if f = t then none
  else if transitionAllowed f t then none
  else some ⟨.invalidStateTransition, f ++ " -> ".toList ++ t⟩

/-- The transition table exactly as written in the spec, §4.5 (spec-side
definition, compared against the `transitionAllowed` of the code). -/
def specStateEdges : List (Str × Str) :=
  [(sTodo, sInProgress), (sTodo, sBlocked), (sTodo, sCanceled),
   (sInProgress, sBlocked), (sInProgress, sDone), (sInProgress, sTodo),
   (sInProgress, sCanceled),
   (sBlocked, sTodo), (sBlocked, sInProgress), (sBlocked, sCanceled),
   (sDone, sTodo), (sCanceled, sTodo)]

/-- `IsValidCategory`. -/
def IsValidCategory (c : Str) : Bool :=
  c = cTask || c = cWorkstream || c = cProject

/-- `expectedParentCategory`: `some req` when the category needs a parent of
category `req`, `none` when it must not have one (the `("", false)` case in Go). -/
def expectedParentCategory (c : Str) : Option Str :=
  if c = cTask then some cWorkstream
  else if c = cWorkstream then some cProject
  else none

/-! ### Rows and the store -/

/-- One row of the `issues` table (struct `Issue`; `ProjectPrefix` is derived
from the id by `scanIssue`, see `prefixOfIssue`).  Timestamps are `Nat`
instants. -/
structure Issue where
  id : Str
  category : Str
  title : Str
  body : Str
  state : Str
  parentID : Option Str
  version : Nat
  blockedBy : List Str
  createdAt : Nat
  lastUpdatedAt : Nat
  closedAt : Option Nat
deriving DecidableEq, Repr

abbrev Store := List Issue

/-- `SELECT ... WHERE id = ?` (first matching row), as used by
`getIssueByIDTx`/`getIssueByIDDB`. -/
def getIssueByID (db : Store) (id : Str) : Option Issue :=
  db.find? (fun i => i.id == id)

/-- How `scanIssue` derives `Issue.ProjectPrefix` from the id (zero value
`""` when the id does not parse). -/
def prefixOfIssue (is : Issue) : Str :=
  (projectPrefixFromIssueID is.id).getD []

/-- The `PRIMARY KEY` constraint on `issues.id` from `schema.sql`. -/
def uniqueIDs (db : Store) : Prop := (db.map Issue.id).Nodup

instance (db : Store) : Decidable (uniqueIDs db) := by
  unfold uniqueIDs; infer_instance

/-- Predicate of `UPDATE ... WHERE id = ?` / `... AND version = ?`. -/
def rowMatches (id : Str) (ev : Option Nat) (i : Issue) : Bool :=
  i.id == id && (match ev with | some v => i.version == v | none => true)

/-- The rows written by a conditional `UPDATE`. -/
def applyWhere (db : Store) (id : Str) (ev : Option Nat) (f : Issue → Issue) :
    Store :=
  db.map (fun i => if rowMatches id ev i then f i else i)

/-- The per-row function a conditional `UPDATE` applies. -/
def updWhere (id : Str) (ev : Option Nat) (f : Issue → Issue) (i : Issue) : Issue :=
  if rowMatches id ev i then f i else i

/-- `RowsAffected` of that `UPDATE`. -/
def affectedRows (db : Store) (id : Str) (ev : Option Nat) : Nat :=
  db.countP (rowMatches id ev)

def notFoundErr (id : Str) : Err :=
  ⟨.notFound, "issue ".toList ++ id ++ " not found".toList⟩

/-- Decimal digits of a natural number (helper for `%d` formatting). -/
def natDigitsAux : Nat → Nat → List Char
  | 0, _ => []
  | fuel + 1, n =>
    if n < 10 then [Char.ofNat (48 + n)]
    else natDigitsAux fuel (n / 10) ++ [Char.ofNat (48 + n % 10)]

def natDigits (n : Nat) : List Char := natDigitsAux (n + 1) n

/-- The error the mutating operations build when `RowsAffected` is zero:
conflict when an expected version was supplied, not-found otherwise. -/
def staleOrMissing (ev : Option Nat) (id : Str) : Err :=
  match ev with
  | some v => ⟨.conflict, "stale write; expected version ".toList ++ natDigits v⟩
  | none => notFoundErr id

/-- Tail of every mutating operation: run the conditional `UPDATE`, check
`RowsAffected`, re-fetch the row, commit. -/
def finishMutation (db : Store) (id : Str) (ev : Option Nat)
    (f : Issue → Issue) : Except Err (Issue × Store) :=
  if affectedRows db id ev = 0 then .error (staleOrMissing ev id)
  else
    match getIssueByID (applyWhere db id ev f) id with
    | some u => .ok (u, applyWhere db id ev f)
    | none => .error (notFoundErr id)

/-! ### Dependency normalization (normalizeBlockedByTx) -/

/-- `strings.Join(l, ",")`. -/
def joinComma : List Str → Str
  | [] => []
  | [x] => x
  | x :: xs => x ++ ',' :: joinComma xs

/-- The loop body of `normalizeBlockedByTx`, with the `seen` set and the
output accumulator made explicit. -/
def normalizeLoop (db : Store) (issueID pfx : Str) :
    List Str → List Str → List Str → Except Err (List Str)
  | [], _, out => .ok out
  | raw :: rest, seen, out =>
    let id := goToLower (goTrim raw)
    if id = [] then normalizeLoop db issueID pfx rest seen out
    else if ¬ issueIDMatches id then
      .error ⟨.invalidInput, "invalid blocked_by issue id ".toList ++ id⟩
    else if id = issueID then
      .error ⟨.invalidInput, "blocked_by cannot include self".toList⟩
    else if id ∈ seen then normalizeLoop db issueID pfx rest seen out
    else
      match projectPrefixFromIssueID id with
      | none =>
        .error ⟨.invalidInput,
          "blocked_by issue must be in same project: ".toList ++ id⟩
      | some p =>
        if p ≠ pfx then
          .error ⟨.invalidInput,
            "blocked_by issue must be in same project: ".toList ++ id⟩
        else
          match getIssueByID db id with
          | none =>
            .error ⟨.notFound,
              "blocked_by issue ".toList ++ id ++ " not found".toList⟩
          | some dep =>
            if prefixOfIssue dep ≠ pfx then
              .error ⟨.invalidInput,
                "blocked_by issue must be in same project: ".toList ++ id⟩
            else normalizeLoop db issueID pfx rest (id :: seen) (out ++ [id])

/-- `normalizeBlockedByTx`. -/
def normalizeBlockedBy (db : Store) (issueID pfx : Str)
    (blockedBy : List Str) : Except Err (List Str) :=
  normalizeLoop db issueID pfx blockedBy [] []

/-! ### Blocked-by gate (unresolvedBlockedByTx) -/

/-- The loop of `unresolvedBlockedByTx`, accumulating the ids of dependencies
that are not `done`. -/
def unresolvedLoop (db : Store) : List Str → List Str → Except Err (List Str)
  | [], acc => .ok acc
  | depID :: rest, acc =>
    match getIssueByID db depID with
    | none =>
      .error ⟨.notFound,
        "blocked_by issue ".toList ++ depID ++ " not found".toList⟩
    | some dep =>
      unresolvedLoop db rest (if dep.state ≠ sDone then acc ++ [dep.id] else acc)

/-- `unresolvedBlockedByTx`. -/
def unresolvedBlockedBy (db : Store) (issue : Issue) : Except Err (List Str) :=
  unresolvedLoop db issue.blockedBy []

/-! ### TransitionState -/

/-- The `SET` clause of the `UPDATE` in `TransitionState` (plus the
`last_updated_at` trigger of `schema.sql`, which sets the same value). -/
def transitionUpdate (tgt : Str) (now : Nat) (i : Issue) : Issue :=
  { i with
    state := tgt
    version := i.version + 1
    lastUpdatedAt := now
    closedAt := if tgt = sDone ∨ tgt = sCanceled then some now else none }

/-- `Service.TransitionState`. -/
def TransitionState (db : Store) (now : Nat) (id tgt : Str)
    (ev : Option Nat) : Except Err (Issue × Store) :=
  if ¬ IsValidState tgt then
    .error ⟨.invalidInput, "unknown target state ".toList ++ tgt⟩
  else
    match getIssueByID db id with
    | none => .error (notFoundErr id)
    | some issue =>
      match ValidateTransition issue.state tgt with
      | some e => .error e
      | none =>
        if tgt = sInProgress then
          match unresolvedBlockedBy db issue with
          | .error e => .error e
          | .ok unresolved =>
            if unresolved ≠ [] then
              .error ⟨.invalidInput,
                "blocked_by not done: ".toList ++ joinComma unresolved⟩
            else finishMutation db id ev (transitionUpdate tgt now)
        else finishMutation db id ev (transitionUpdate tgt now)

/-! ### SetParent -/

/-- The `SET` clause of the `UPDATE` in `SetParent`. -/
def parentUpdate (newParent : Option Str) (now : Nat) (i : Issue) : Issue :=
  { i with parentID := newParent, version := i.version + 1, lastUpdatedAt := now }

/-- `Service.SetParent`. -/
def SetParent (db : Store) (now : Nat) (id0 : Str) (parentID : Option Str)
    (ev : Option Nat) : Except Err (Issue × Store) :=
  let id := goTrim id0
  if id = [] then .error ⟨.invalidInput, "id is required".toList⟩
  else
    match getIssueByID db id with
    | none => .error (notFoundErr id)
    | some issue =>
      match expectedParentCategory issue.category, parentID with
      | some reqCat, some p0 =>
        let pid := goTrim p0
        if pid = [] then
          .error ⟨.invalidInput,
            "category ".toList ++ issue.category ++
            " requires parent category ".toList ++ reqCat⟩
        else
          match getIssueByID db pid with
          | none => .error (notFoundErr pid)
          | some parent =>
            if prefixOfIssue parent ≠ prefixOfIssue issue then
              .error ⟨.invalidInput, "parent must be in same project".toList⟩
            else if parent.category ≠ reqCat then
              .error ⟨.invalidInput,
                "category ".toList ++ issue.category ++
                " requires parent category ".toList ++ reqCat⟩
            else finishMutation db id ev (parentUpdate (some pid) now)
      | some reqCat, none =>
        .error ⟨.invalidInput,
          "category ".toList ++ issue.category ++
          " requires parent category ".toList ++ reqCat⟩
      | none, some p0 =>
        if goTrim p0 ≠ [] then
          .error ⟨.invalidInput,
            "category ".toList ++ issue.category ++ " cannot have a parent".toList⟩
        else finishMutation db id ev (parentUpdate none now)
      | none, none => finishMutation db id ev (parentUpdate none now)

/-! ### SetBlockedBy -/

/-- The `SET` clause of the `UPDATE` in `SetBlockedBy`. -/
def blockedByUpdate (normalized : List Str) (now : Nat) (i : Issue) : Issue :=
  { i with blockedBy := normalized, version := i.version + 1, lastUpdatedAt := now }

/-- `Service.SetBlockedBy`. -/
def SetBlockedBy (db : Store) (now : Nat) (id0 : Str) (blockedBy : List Str)
    (ev : Option Nat) : Except Err (Issue × Store) :=
  let id := goTrim id0
  if id = [] then .error ⟨.invalidInput, "id is required".toList⟩
  else
    match getIssueByID db id with
    | none => .error (notFoundErr id)
    | some issue =>
      match normalizeBlockedBy db issue.id (prefixOfIssue issue) blockedBy with
      | .error e => .error e
      | .ok normalized => finishMutation db id ev (blockedByUpdate normalized now)

/-! ### CreateIssue -/

/-- `randomIssueNumber` on one oracle draw; `% 900000` carries the contract
of `rand.Int(rand.Reader, big.NewInt(900000))` that the raw draw lies in
`[0, 900000)`. -/
def randomIssueNumber (draw : Nat) : Nat := 100000 + draw % 900000

/-- The per-attempt validations of `CreateIssue` (parent-category rules and
dependency normalization), returning the cleaned parent and the normalized
blocked-by list. -/
def createChecks (db : Store) (pfx category : Str) (parentID : Option Str)
    (blockedBy : List Str) (issueID : Str) :
    Except Err (Option Str × List Str) :=
  let cont : Option Str → Except Err (Option Str × List Str) := fun cleanParent =>
    match normalizeBlockedBy db issueID pfx blockedBy with
    | .error e => .error e
    | .ok normalized => .ok (cleanParent, normalized)
  match expectedParentCategory category, parentID with
  | some reqCat, some p0 =>
    let pid := goTrim p0
    if pid = [] then
      .error ⟨.invalidInput,
        "category ".toList ++ category ++
        " requires parent category ".toList ++ reqCat⟩
    else
      match getIssueByID db pid with
      | none =>
        .error ⟨.notFound, "parent issue ".toList ++ pid ++ " not found".toList⟩
      | some parent =>
        if prefixOfIssue parent ≠ pfx then
          .error ⟨.invalidInput, "parent issue must be in same project".toList⟩
        else if parent.category ≠ reqCat then
          .error ⟨.invalidInput,
            "category ".toList ++ category ++
            " requires parent category ".toList ++ reqCat⟩
        else cont (some pid)
  | some reqCat, none =>
    .error ⟨.invalidInput,
      "category ".toList ++ category ++
      " requires parent category ".toList ++ reqCat⟩
  | none, some p0 =>
    if goTrim p0 ≠ [] then
      .error ⟨.invalidInput,
        "category ".toList ++ category ++ " cannot have a parent".toList⟩
    else cont none
  | none, none => cont none

/-- The row inserted by `CreateIssue` (`state` fixed at todo, `version`
fixed at `1`, `created_at`/`last_updated_at` defaulting to
`CURRENT_TIMESTAMP`, `closed_at` defaulting to `NULL`). -/
def newIssueRow (issueID category title body : Str) (cleanParent : Option Str)
    (normalized : List Str) (now : Nat) : Issue :=
  { id := issueID, category := category, title := title, body := body
    state := sTodo, parentID := cleanParent, version := 1
    blockedBy := normalized, createdAt := now, lastUpdatedAt := now
    closedAt := none }

/-- The retry loop of `CreateIssue`: at most `fuel` insertion attempts,
retrying (with the next oracle draw) only on a unique-constraint violation,
i.e. only when the drawn id already exists. -/
def createAttempt (db : Store) (now : Nat) (draws : Nat → Nat)
    (pfx category title body : Str) (parentID : Option Str)
    (blockedBy : List Str) : Nat → Nat → Except Err (Issue × Store)
  | _, 0 => .error ⟨.conflict, "failed to allocate issue number after retries".toList⟩
  | k, fuel + 1 =>
    let issueID := pfx ++ '-' :: natDigits (randomIssueNumber (draws k))
    match createChecks db pfx category parentID blockedBy issueID with
    | .error e => .error e
    | .ok (cleanParent, normalized) =>
      match getIssueByID db issueID with
      | some _ =>
        createAttempt db now draws pfx category title body parentID blockedBy
          (k + 1) fuel
      | none =>
        let row := newIssueRow issueID category title body cleanParent normalized now
        match getIssueByID (db ++ [row]) issueID with
        | some u => .ok (u, db ++ [row])
        | none => .error (notFoundErr issueID)

/-- `Service.CreateIssue` (`maxCreateAttempts = 8`). -/
def CreateIssue (db : Store) (now : Nat) (draws : Nat → Nat) (pfx0 category title0 body : Str)
    (parentID : Option Str) (blockedBy : List Str) : Except Err (Issue × Store) :=
  let pfx := goTrim (goToLower pfx0)
  let title := goTrim title0
  if ¬ projectPrefixMatches pfx then
    .error ⟨.invalidInput,
      "project prefix must be exactly 3 lowercase alphanumeric chars".toList⟩
  else if ¬ IsValidCategory category then
    .error ⟨.invalidInput, "unknown category ".toList ++ category⟩
  else if title = [] then
    .error ⟨.invalidInput, "title is required".toList⟩
  else createAttempt db now draws pfx category title body parentID blockedBy 0 8

/-! ### Derived predicates and fixtures used by the statements -/

/-- The dependency ids of `l` whose row exists but is not in state done:
exactly the list `unresolvedBlockedByTx` accumulates when every dependency
exists. -/
def notDoneDeps (db : Store) (l : List Str) : List Str :=
  l.filter (fun dep =>
    match getIssueByID db dep with
    | some d => d.state ≠ sDone
    | none => false)

/-- What `normalizeBlockedByTx` guarantees of every id it emits: well-formed,
not the issue itself, of the requested project, resolving to a row of that
project. -/
def goodDep (db : Store) (issueID pfx x : Str) : Prop :=
  issueIDMatches x = true ∧ x ≠ issueID ∧
  projectPrefixFromIssueID x = some pfx ∧
  ∃ d, getIssueByID db x = some d ∧ prefixOfIssue d = pfx

/-- The parent-argument validations of `SetParent` succeed. -/
def parentArgsOK (db : Store) (issue : Issue) (parentID : Option Str) : Prop :=
  match expectedParentCategory issue.category, parentID with
  | some reqCat, some p0 => goTrim p0 ≠ [] ∧
      ∃ parent, getIssueByID db (goTrim p0) = some parent ∧
        prefixOfIssue parent = prefixOfIssue issue ∧ parent.category = reqCat
  | some _, none => False
  | none, some p0 => goTrim p0 = []
  | none, none => True

/-- The hierarchy invariant of §3 of the spec, per committed row. -/
def hierarchyOK (db : Store) (is : Issue) : Prop :=
  (is.category = cProject → is.parentID = none) ∧
  (is.category = cWorkstream → ∃ pid parent, is.parentID = some pid ∧
      getIssueByID db pid = some parent ∧ parent.category = cProject ∧
      prefixOfIssue parent = prefixOfIssue is) ∧
  (is.category = cTask → ∃ pid parent, is.parentID = some pid ∧
      getIssueByID db pid = some parent ∧ parent.category = cWorkstream ∧
      prefixOfIssue parent = prefixOfIssue is)

/-- The closure invariant of §3: `closed_at` is non-null iff the state is
done or canceled. -/
def closedOK (is : Issue) : Prop :=
  is.closedAt ≠ none ↔ (is.state = sDone ∨ is.state = sCanceled)

instance (is : Issue) : Decidable (closedOK is) := by
  unfold closedOK
  infer_instance

/-- All blocked-by dependencies of `l` exist and are done. -/
def depsAllDone (db : Store) (l : List Str) : Prop :=
  ∀ dep ∈ l, ∃ d, getIssueByID db dep = some d ∧ d.state = sDone

/-- Projection helper for stating concrete outcomes. -/
def okVersion : Except Err (Issue × Store) → Option Nat
  | .ok p => some p.1.version
  | .error _ => none

/-- Whether a service outcome committed. -/
def committed : Except Err (Issue × Store) → Bool
  | .ok _ => true
  | .error _ => false

/-- Fixture row builder for the concrete checks. -/
def mkRow (id : String) (category st : Str) (par : Option String) (ver : Nat)
    (bb : List String) (closed : Option Nat) : Issue :=
  { id := id.toList, category := category, title := [Char.ofNat 116]
    body := [], state := st, parentID := par.map String.toList, version := ver
    blockedBy := bb.map String.toList, createdAt := 0, lastUpdatedAt := 0
    closedAt := closed }

def wProj : Issue := mkRow "abc-100001" cProject sTodo none 1 [] none
def wWS : Issue := mkRow "abc-100002" cWorkstream sTodo (some "abc-100001") 1 [] none
def wTaskTodo : Issue := mkRow "abc-100003" cTask sTodo (some "abc-100002") 1 [] none
def wTaskDone : Issue := mkRow "abc-100004" cTask sDone (some "abc-100002") 3 [] (some 0)
def wTaskGated : Issue :=
  mkRow "abc-100005" cTask sTodo (some "abc-100002") 1 ["abc-100003"] none
def wTaskMissingDep : Issue :=
  mkRow "abc-100006" cTask sTodo (some "abc-100002") 1 ["abc-100009"] none

/-- Concrete store fixture. -/
def dbW : Store := [wProj, wWS, wTaskTodo, wTaskDone, wTaskGated, wTaskMissingDep]

/-- Whether a normalization outcome succeeded. -/
def normOK : Except Err (List Str) → Bool
  | .ok _ => true
  | .error _ => false

instance exceptDecEq {α β : Type} [DecidableEq α] [DecidableEq β] :
    DecidableEq (Except α β) := fun a b =>
  match a, b with
  | .ok x, .ok y =>
    if h : x = y then .isTrue (by rw [h]) else .isFalse (by simp [h])
  | .error x, .error y =>
    if h : x = y then .isTrue (by rw [h]) else .isFalse (by simp [h])
  | .ok _, .error _ => .isFalse (by simp)
  | .error _, .ok _ => .isFalse (by simp)

/-- The workstream row a concrete `CreateIssue` call against `dbW` commits. -/
def wNewWS : Issue :=
  newIssueRow ("abc-100042".toList) cWorkstream [Char.ofNat 84] []
    (some ("abc-100001".toList)) [] 3

/-! ## Store lemmas -/

theorem getIssueByID_cons (a : Issue) (l : Store) (id : Str) :
    getIssueByID (a :: l) id = if a.id = id then some a else getIssueByID l id := by
  unfold getIssueByID
  cases hb : (a.id == id) with
  | true => simp [List.find?_cons, hb, beq_iff_eq.1 hb]
  | false =>
    have hne : a.id ≠ id := by simpa using hb
    simp [List.find?_cons, hb, hne]

theorem getIssueByID_id_eq {db : Store} {id : Str} {i : Issue}
    (h : getIssueByID db id = some i) : i.id = id := by
  have h2 := List.find?_some h
  simpa using h2

theorem getIssueByID_mem {db : Store} {id : Str} {i : Issue}
    (h : getIssueByID db id = some i) : i ∈ db :=
  List.mem_of_find?_eq_some h

theorem getIssueByID_append_left {db l2 : Store} {id : Str} {i : Issue}
    (h : getIssueByID db id = some i) : getIssueByID (db ++ l2) id = some i := by
  induction db with
  | nil => simp [getIssueByID] at h
  | cons a l ih =>
    rw [List.cons_append, getIssueByID_cons]
    rw [getIssueByID_cons] at h
    by_cases hb : a.id = id
    · rwa [if_pos hb] at h ⊢
    · rw [if_neg hb] at h ⊢
      exact ih h

theorem getIssueByID_append_fresh {db : Store} {row : Issue} {id : Str}
    (h : getIssueByID db id = none) (hr : row.id = id) :
    getIssueByID (db ++ [row]) id = some row := by
  induction db with
  | nil => simp [getIssueByID_cons, hr, getIssueByID]
  | cons a l ih =>
    rw [List.cons_append, getIssueByID_cons]
    rw [getIssueByID_cons] at h
    by_cases hb : a.id = id
    · rw [if_pos hb] at h
      exact absurd h (by simp)
    · rw [if_neg hb] at h ⊢
      exact ih h

theorem getIssueByID_map {db : Store} {g : Issue → Issue}
    (hg : ∀ i, (g i).id = i.id) (id : Str) :
    getIssueByID (db.map g) id = (getIssueByID db id).map g := by
  induction db with
  | nil => rfl
  | cons a l ih =>
    rw [List.map_cons, getIssueByID_cons, getIssueByID_cons, hg a]
    by_cases hb : a.id = id
    · rw [if_pos hb, if_pos hb]
      rfl
    · rw [if_neg hb, if_neg hb]
      exact ih

theorem uniqueIDs_eq {db : Store} (hu : uniqueIDs db) {a b : Issue}
    (ha : a ∈ db) (hb : b ∈ db) (hid : a.id = b.id) : a = b :=
  List.inj_on_of_nodup_map hu ha hb hid

theorem affectedRows_ne_zero {db : Store} {id : Str} {ev : Option Nat}
    {i : Issue} (hm : i ∈ db) (h : rowMatches id ev i = true) :
    affectedRows db id ev ≠ 0 := by
  unfold affectedRows
  induction db with
  | nil => cases hm
  | cons a l ih =>
    rw [List.countP_cons]
    rcases List.mem_cons.1 hm with rfl | hm2
    · simp [h]
    · have h3 := ih hm2
      omega

theorem affectedRows_eq_zero {db : Store} {id : Str} {ev : Option Nat}
    (h : ∀ i ∈ db, rowMatches id ev i = false) :
    affectedRows db id ev = 0 := by
  unfold affectedRows
  induction db with
  | nil => rfl
  | cons a l ih =>
    rw [List.countP_cons, h a (by simp)]
    simpa using ih (fun i hi => h i (by simp [hi]))

theorem exists_match_of_affected_ne_zero {db : Store} {id : Str}
    {ev : Option Nat} (h : affectedRows db id ev ≠ 0) :
    ∃ i ∈ db, rowMatches id ev i = true := by
  by_contra hc
  push_neg at hc
  exact h (affectedRows_eq_zero (fun i hi => by
    have := hc i hi
    simpa using this))

theorem rowMatches_id_eq {id : Str} {ev : Option Nat} {i : Issue}
    (h : rowMatches id ev i = true) : i.id = id := by
  unfold rowMatches at h
  simp at h
  exact h.1

theorem rowMatches_version_eq {id : Str} {v : Nat} {i : Issue}
    (h : rowMatches id (some v) i = true) : i.version = v := by
  unfold rowMatches at h
  simp at h
  exact h.2

theorem finishMutation_run {db : Store} {id : Str} {ev : Option Nat}
    {f : Issue → Issue} {issue : Issue}
    (hpres : ∀ i, (f i).id = i.id)
    (hfind : getIssueByID db id = some issue)
    (hm : rowMatches id ev issue = true) :
    finishMutation db id ev f = .ok (f issue, applyWhere db id ev f) := by
  unfold finishMutation
  rw [if_neg (affectedRows_ne_zero (getIssueByID_mem hfind) hm)]
  have hmap : getIssueByID (applyWhere db id ev f) id = some (f issue) := by
    unfold applyWhere
    rw [getIssueByID_map (g := fun i => if rowMatches id ev i then f i else i)
      (fun i => by by_cases hh : rowMatches id ev i = true <;> simp [hh, hpres]) id]
    rw [hfind]
    simp [hm]
  rw [hmap]

theorem finishMutation_conflict {db : Store} {id : Str} {v : Nat}
    {f : Issue → Issue} {issue : Issue}
    (hu : uniqueIDs db) (hfind : getIssueByID db id = some issue)
    (hne : v ≠ issue.version) :
    finishMutation db id (some v) f =
      .error ⟨.conflict, "stale write; expected version ".toList ++ natDigits v⟩ := by
  unfold finishMutation
  have hz : affectedRows db id (some v) = 0 := by
    apply affectedRows_eq_zero
    intro i hi
    by_contra hcon
    have hm : rowMatches id (some v) i = true := by
      cases hmm : rowMatches id (some v) i
      · exact absurd hmm hcon
      · rfl
    have hieq : i = issue :=
      uniqueIDs_eq hu hi (getIssueByID_mem hfind)
        ((rowMatches_id_eq hm).trans (getIssueByID_id_eq hfind).symm)
    exact hne ((rowMatches_version_eq hm).symm.trans (by rw [hieq]))
  rw [if_pos hz]
  rfl

theorem finishMutation_ok_shape {db : Store} {id : Str} {ev : Option Nat}
    {f : Issue → Issue} {u : Issue} {db2 : Store}
    (hpres : ∀ i, (f i).id = i.id) (hu : uniqueIDs db)
    (h : finishMutation db id ev f = .ok (u, db2)) :
    ∃ issue, getIssueByID db id = some issue ∧ rowMatches id ev issue = true ∧
      u = f issue ∧ db2 = applyWhere db id ev f := by
  unfold finishMutation at h
  by_cases hz : affectedRows db id ev = 0
  · rw [if_pos hz] at h
    exact absurd h (by simp)
  · rw [if_neg hz] at h
    obtain ⟨i, hi, hm⟩ := exists_match_of_affected_ne_zero hz
    have hsome : ∃ issue, getIssueByID db id = some issue := by
      cases hff : getIssueByID db id with
      | none =>
        exfalso
        unfold getIssueByID at hff
        have := List.find?_eq_none.1 hff i hi
        simp [rowMatches_id_eq hm] at this
      | some issue => exact ⟨issue, rfl⟩
    obtain ⟨issue, hfind⟩ := hsome
    have hieq : i = issue :=
      uniqueIDs_eq hu hi (getIssueByID_mem hfind)
        ((rowMatches_id_eq hm).trans (getIssueByID_id_eq hfind).symm)
    have hm2 : rowMatches id ev issue = true := hieq ▸ hm
    have hmap : getIssueByID (applyWhere db id ev f) id = some (f issue) := by
      unfold applyWhere
      rw [getIssueByID_map (g := fun i => if rowMatches id ev i then f i else i)
        (fun i => by by_cases hh : rowMatches id ev i = true <;> simp [hh, hpres]) id]
      rw [hfind]
      simp [hm2]
    rw [hmap] at h
    refine ⟨issue, hfind, hm2, ?_, ?_⟩
    · cases h; rfl
    · cases h; rfl

/-! ## State-machine lemmas -/

theorem isValidState_cases {s : Str} (h : IsValidState s = true) :
    s = sTodo ∨ s = sInProgress ∨ s = sBlocked ∨ s = sDone ∨ s = sCanceled := by
  unfold IsValidState at h
  simp at h
  tauto

/-- The legality table of the code agrees exactly with the table written in
§4.5 of the spec, on all pairs of defined states. -/
theorem transitionAllowed_iff_spec {f t : Str}
    (hf : IsValidState f = true) (ht : IsValidState t = true) :
    transitionAllowed f t = true ↔ (f, t) ∈ specStateEdges := by
  rcases isValidState_cases hf with rfl | rfl | rfl | rfl | rfl <;>
    rcases isValidState_cases ht with rfl | rfl | rfl | rfl | rfl <;> decide

theorem validateTransition_self (s : Str) : ValidateTransition s s = none := by
  unfold ValidateTransition
  simp

theorem validateTransition_edge {f t : Str} (hf : IsValidState f = true)
    (ht : IsValidState t = true) (hmem : (f, t) ∈ specStateEdges) :
    ValidateTransition f t = none := by
  unfold ValidateTransition
  rw [(transitionAllowed_iff_spec hf ht).2 hmem]
  simp

theorem validateTransition_nonedge {f t : Str} (hf : IsValidState f = true)
    (ht : IsValidState t = true) (hne : f ≠ t)
    (hmem : (f, t) ∉ specStateEdges) :
    ValidateTransition f t =
      some ⟨.invalidStateTransition, f ++ " -> ".toList ++ t⟩ := by
  unfold ValidateTransition
  rw [if_neg hne]
  have : transitionAllowed f t = false := by
    cases hta : transitionAllowed f t
    · rfl
    · exact absurd ((transitionAllowed_iff_spec hf ht).1 hta) hmem
  rw [this]
  simp

/-! ## Blocked-by gate lemmas -/

theorem unresolvedLoop_all_done {db : Store} {l : List Str}
    (h : depsAllDone db l) :
    ∀ acc, unresolvedLoop db l acc = .ok acc := by
  induction l with
  | nil => intro acc; rfl
  | cons dep rest ih =>
    intro acc
    obtain ⟨d, hd, hds⟩ := h dep (by simp)
    simp only [unresolvedLoop, hd]
    rw [if_neg (by simp [hds])]
    exact ih (fun x hx => h x (by simp [hx])) acc

theorem unresolvedLoop_missing {db : Store} {l : List Str}
    (h : ∃ dep ∈ l, getIssueByID db dep = none) :
    ∀ acc, ∃ e, unresolvedLoop db l acc = .error e ∧ e.kind = .notFound := by
  induction l with
  | nil =>
    obtain ⟨dep, hmem, _⟩ := h
    cases hmem
  | cons dep rest ih =>
    intro acc
    cases hd : getIssueByID db dep with
    | none =>
      refine ⟨⟨.notFound, "blocked_by issue ".toList ++ dep ++ " not found".toList⟩, ?_, rfl⟩
      simp only [unresolvedLoop, hd]
    | some d =>
      obtain ⟨x, hxm, hx⟩ := h
      rcases List.mem_cons.1 hxm with rfl | hxr
      · rw [hd] at hx
        cases hx
      · simp only [unresolvedLoop, hd]
        exact ih ⟨x, hxr, hx⟩ _

theorem unresolvedLoop_run {db : Store} {l : List Str}
    (h : ∀ dep ∈ l, (getIssueByID db dep).isSome = true) :
    ∀ acc, unresolvedLoop db l acc = .ok (acc ++ notDoneDeps db l) := by
  induction l with
  | nil => intro acc; simp [notDoneDeps, unresolvedLoop]
  | cons dep rest ih =>
    intro acc
    have hs := h dep (by simp)
    cases hd : getIssueByID db dep with
    | none =>
      rw [hd] at hs
      cases hs
    | some d =>
      have hdid : d.id = dep := getIssueByID_id_eq hd
      simp only [unresolvedLoop, hd]
      by_cases hnd : d.state = sDone
      · rw [if_neg (by simp [hnd])]
        rw [ih (fun x hx => h x (by simp [hx])) acc]
        have : notDoneDeps db (dep :: rest) = notDoneDeps db rest := by
          simp [notDoneDeps, List.filter_cons, hd, hnd]
        rw [this]
      · rw [if_pos (by simp [hnd])]
        rw [ih (fun x hx => h x (by simp [hx])) (acc ++ [d.id]), hdid]
        have : notDoneDeps db (dep :: rest) = dep :: notDoneDeps db rest := by
          simp [notDoneDeps, List.filter_cons, hd, hnd]
        rw [this, List.append_assoc]
        rfl

theorem unresolvedLoop_exists {db : Store} {l : List Str} {acc res : List Str}
    (h : unresolvedLoop db l acc = .ok res) :
    ∀ dep ∈ l, (getIssueByID db dep).isSome = true := by
  induction l generalizing acc with
  | nil =>
    intro dep hd
    cases hd
  | cons dep rest ih =>
    intro x hx
    cases hd : getIssueByID db dep with
    | none =>
      simp only [unresolvedLoop, hd] at h
      exact absurd h (by simp)
    | some d =>
      simp only [unresolvedLoop, hd] at h
      rcases List.mem_cons.1 hx with rfl | hxr
      · rw [hd]
        rfl
      · exact ih h x hxr

theorem unresolvedBlockedBy_run {db : Store} {issue : Issue}
    (h : ∀ dep ∈ issue.blockedBy, (getIssueByID db dep).isSome = true) :
    unresolvedBlockedBy db issue = .ok (notDoneDeps db issue.blockedBy) := by
  unfold unresolvedBlockedBy
  simpa using unresolvedLoop_run h []

theorem unresolvedBlockedBy_all_done {db : Store} {issue : Issue}
    (h : depsAllDone db issue.blockedBy) :
    unresolvedBlockedBy db issue = .ok [] :=
  unresolvedLoop_all_done h []

theorem gate_ok_all_done {db : Store} {issue : Issue}
    (h : unresolvedBlockedBy db issue = .ok []) :
    depsAllDone db issue.blockedBy := by
  have hex := unresolvedLoop_exists (h : unresolvedLoop db issue.blockedBy [] = .ok [])
  have hrun := unresolvedLoop_run hex []
  have hnil : notDoneDeps db issue.blockedBy = [] := by
    have h2 := hrun.symm.trans (h : unresolvedLoop db issue.blockedBy [] = .ok [])
    simpa using h2
  intro dep hdep
  have hs := hex dep hdep
  cases hd : getIssueByID db dep with
  | none =>
    rw [hd] at hs
    cases hs
  | some d =>
    refine ⟨d, rfl, ?_⟩
    by_contra hnd
    have hmem : dep ∈ notDoneDeps db issue.blockedBy := by
      simp only [notDoneDeps, List.mem_filter]
      exact ⟨hdep, by simp [hd, hnd]⟩
    rw [hnil] at hmem
    cases hmem

/-! ## Character, trim and lowercase lemmas -/

theorem not_space_of_lowerAlnum {c : Char} (h : isLowerAlnumChar c = true) :
    isSpaceChar c = false := by
  simp [isLowerAlnumChar, isDigitChar] at h
  simp only [isSpaceChar]
  simp only [Bool.or_eq_false_iff, decide_eq_false_iff_not]
  omega

theorem not_space_of_digit {c : Char} (h : isDigitChar c = true) :
    isSpaceChar c = false := by
  simp [isDigitChar] at h
  simp only [isSpaceChar]
  simp only [Bool.or_eq_false_iff, decide_eq_false_iff_not]
  omega

theorem lowerChar_fixed_of_lowerAlnum {c : Char} (h : isLowerAlnumChar c = true) :
    lowerChar c = c := by
  simp [isLowerAlnumChar, isDigitChar] at h
  unfold lowerChar
  rw [if_neg]
  simp only [Bool.and_eq_true, decide_eq_true_eq, not_and]
  omega

theorem lowerChar_fixed_of_digit {c : Char} (h : isDigitChar c = true) :
    lowerChar c = c := by
  simp [isDigitChar] at h
  unfold lowerChar
  rw [if_neg]
  simp only [Bool.and_eq_true, decide_eq_true_eq, not_and]
  omega

theorem lowerChar_dash : lowerChar '-' = '-' := by decide

theorem dropWhile_cons_of_neg {p : Char → Bool} {c : Char} {l : Str}
    (h : p c = false) : (c :: l).dropWhile p = c :: l := by
  simp [List.dropWhile_cons, h]

theorem goTrim_eq_self {l : Str}
    (h1 : l.dropWhile isSpaceChar = l)
    (h2 : l.reverse.dropWhile isSpaceChar = l.reverse) : goTrim l = l := by
  unfold goTrim
  rw [h1, h2, List.reverse_reverse]

theorem goToLower_fixed {l : Str} (h : ∀ c ∈ l, lowerChar c = c) :
    goToLower l = l := by
  unfold goToLower
  induction l with
  | nil => rfl
  | cons c rest ih =>
    rw [List.map_cons, h c (by simp), ih (fun x hx => h x (by simp [hx]))]

theorem issueIDMatches_elim {x : Str} (h : issueIDMatches x = true) :
    ∃ a b c rest, x = a :: b :: c :: '-' :: rest ∧
      isLowerAlnumChar a = true ∧ isLowerAlnumChar b = true ∧
      isLowerAlnumChar c = true ∧ rest ≠ [] ∧ rest.all isDigitChar = true := by
  match x, h with
  | a :: b :: c :: d :: rest, h =>
    simp only [issueIDMatches, Bool.and_eq_true, decide_eq_true_eq] at h
    obtain ⟨⟨⟨⟨⟨ha, hb⟩, hc⟩, hd⟩, hne⟩, hall⟩ := h
    subst hd
    exact ⟨a, b, c, rest, rfl, ha, hb, hc, by simpa using hne, hall⟩

theorem projectPrefixMatches_elim {p : Str} (h : projectPrefixMatches p = true) :
    ∃ a b c, p = [a, b, c] ∧ isLowerAlnumChar a = true ∧
      isLowerAlnumChar b = true ∧ isLowerAlnumChar c = true := by
  match p, h with
  | [a, b, c], h =>
    simp only [projectPrefixMatches, Bool.and_eq_true] at h
    exact ⟨a, b, c, rfl, h.1.1, h.1.2, h.2⟩

theorem goTrim_fixed_of_matches {x : Str} (h : issueIDMatches x = true) :
    goTrim x = x := by
  obtain ⟨a, b, c, rest, rfl, ha, hb, hc, hne, hall⟩ := issueIDMatches_elim h
  apply goTrim_eq_self
  · exact dropWhile_cons_of_neg (not_space_of_lowerAlnum ha)
  · obtain ⟨d0, t0, hrev⟩ : ∃ d0 t0, rest.reverse = d0 :: t0 := by
      cases hr : rest.reverse with
      | nil => exact absurd (by simpa using hr) hne
      | cons d0 t0 => exact ⟨d0, t0, rfl⟩
    have hd0 : d0 ∈ rest := by
      have hmem : d0 ∈ rest.reverse := by
        rw [hrev]
        simp
      simpa using hmem
    have hd0d : isDigitChar d0 = true := by
      have h2 := List.all_eq_true.1 hall d0 hd0
      simpa using h2
    have hshape : (a :: b :: c :: '-' :: rest).reverse = d0 :: (t0 ++ ['-', c, b, a]) := by
      simp [List.reverse_cons, hrev]
    rw [hshape]
    exact dropWhile_cons_of_neg (not_space_of_digit hd0d)

theorem goToLower_fixed_of_matches {x : Str} (h : issueIDMatches x = true) :
    goToLower x = x := by
  obtain ⟨a, b, c, rest, rfl, ha, hb, hc, hne, hall⟩ := issueIDMatches_elim h
  apply goToLower_fixed
  intro ch hch
  simp only [List.mem_cons] at hch
  rcases hch with rfl | rfl | rfl | rfl | hmem
  · exact lowerChar_fixed_of_lowerAlnum ha
  · exact lowerChar_fixed_of_lowerAlnum hb
  · exact lowerChar_fixed_of_lowerAlnum hc
  · exact lowerChar_dash
  · exact lowerChar_fixed_of_digit (by simpa using List.all_eq_true.1 hall ch hmem)

theorem clean_fixed_of_matches {x : Str} (h : issueIDMatches x = true) :
    goToLower (goTrim x) = x := by
  rw [goTrim_fixed_of_matches h, goToLower_fixed_of_matches h]

theorem natDigitsAux_all (fuel n : Nat) :
    (natDigitsAux fuel n).all isDigitChar = true := by
  induction fuel generalizing n with
  | zero => rfl
  | succ fuel ih =>
    unfold natDigitsAux
    by_cases h : n < 10
    · rw [if_pos h]
      have hdig : isDigitChar (Char.ofNat (48 + n)) = true := by
        interval_cases n <;> decide
      simp [hdig]
    · rw [if_neg h]
      rw [List.all_append]
      have hdig : isDigitChar (Char.ofNat (48 + n % 10)) = true := by
        have h2 : n % 10 < 10 := Nat.mod_lt _ (by omega)
        generalize n % 10 = m at h2 ⊢
        interval_cases m <;> decide
      simp [hdig, ih (n / 10)]

theorem natDigits_all (n : Nat) : (natDigits n).all isDigitChar = true :=
  natDigitsAux_all _ _

theorem natDigits_ne_nil (n : Nat) : natDigits n ≠ [] := by
  unfold natDigits natDigitsAux
  by_cases h : n < 10
  · simp [h]
  · simp [h]

theorem splitFirstDash_construct {p : Str} (hp : ∀ c ∈ p, c ≠ '-') (rest : Str) :
    splitFirstDash (p ++ '-' :: rest) = some (p, rest) := by
  induction p with
  | nil => simp [splitFirstDash]
  | cons c t ih =>
    have hc : c ≠ '-' := hp c (by simp)
    simp only [List.cons_append, splitFirstDash, List.append_eq]
    rw [if_neg hc, ih (fun x hx => hp x (by simp [hx]))]
    rfl

theorem lowerAlnum_ne_dash {c : Char} (h : isLowerAlnumChar c = true) : c ≠ '-' := by
  intro hc
  subst hc
  exact absurd h (by decide)

theorem issueIDMatches_construct {pfx : Str} (hp : projectPrefixMatches pfx = true)
    {digits : Str} (hne : digits ≠ []) (hall : digits.all isDigitChar = true) :
    issueIDMatches (pfx ++ '-' :: digits) = true := by
  obtain ⟨a, b, c, rfl, ha, hb, hc⟩ := projectPrefixMatches_elim hp
  simp [issueIDMatches, ha, hb, hc, hne, hall]

theorem prefixFromID_construct {pfx : Str} (hp : projectPrefixMatches pfx = true)
    {digits : Str} (hne : digits ≠ []) (hall : digits.all isDigitChar = true) :
    projectPrefixFromIssueID (pfx ++ '-' :: digits) = some pfx := by
  have hm := issueIDMatches_construct hp hne hall
  unfold projectPrefixFromIssueID
  rw [goTrim_fixed_of_matches hm, goToLower_fixed_of_matches hm]
  obtain ⟨a, b, c, rfl, ha, hb, hc⟩ := projectPrefixMatches_elim hp
  rw [splitFirstDash_construct (fun x hx => by
    rcases (by simpa using hx : x = a ∨ x = b ∨ x = c) with rfl | rfl | rfl
    · exact lowerAlnum_ne_dash ha
    · exact lowerAlnum_ne_dash hb
    · exact lowerAlnum_ne_dash hc) digits]
  simp [hp]

/-! ## Normalization lemmas -/

theorem normalizeLoop_ok_elements {db : Store} {issueID pfx : Str}
    {raws seen out res : List Str}
    (h : normalizeLoop db issueID pfx raws seen out = .ok res) :
    ∀ x ∈ res, x ∈ out ∨ goodDep db issueID pfx x := by
  induction raws generalizing seen out with
  | nil =>
    simp only [normalizeLoop] at h
    cases h
    intro x hx
    exact Or.inl hx
  | cons raw rest ih =>
    simp only [normalizeLoop] at h
    by_cases h1 : goToLower (goTrim raw) = []
    · rw [if_pos h1] at h
      exact ih h
    · rw [if_neg h1] at h
      by_cases h2 : issueIDMatches (goToLower (goTrim raw)) = true
      · rw [if_neg (by simp [h2])] at h
        by_cases h3 : goToLower (goTrim raw) = issueID
        · rw [if_pos h3] at h
          exact absurd h (by simp)
        · rw [if_neg h3] at h
          by_cases h4 : goToLower (goTrim raw) ∈ seen
          · rw [if_pos h4] at h
            exact ih h
          · rw [if_neg h4] at h
            cases h5 : projectPrefixFromIssueID (goToLower (goTrim raw)) with
            | none =>
              simp only [h5] at h
              exact absurd h (by simp)
            | some p =>
              simp only [h5] at h
              by_cases h6 : p = pfx
              · rw [if_neg (by simp [h6])] at h
                cases h7 : getIssueByID db (goToLower (goTrim raw)) with
                | none =>
                  simp only [h7] at h
                  exact absurd h (by simp)
                | some dep =>
                  simp only [h7] at h
                  by_cases h8 : prefixOfIssue dep = pfx
                  · rw [if_neg (by simp [h8])] at h
                    intro x hx
                    rcases ih h x hx with hxo | hxg
                    · rcases List.mem_append.1 hxo with hxo2 | hxs
                      · exact Or.inl hxo2
                      · have hxeq : x = goToLower (goTrim raw) := by simpa using hxs
                        subst hxeq
                        exact Or.inr ⟨h2, h3, h6 ▸ h5, dep, h7, h8⟩
                    · exact Or.inr hxg
                  · rw [if_pos (by simp [h8])] at h
                    exact absurd h (by simp)
              · rw [if_pos (by simp [h6])] at h
                exact absurd h (by simp)
      · rw [if_pos (by simp [h2])] at h
        exact absurd h (by simp)

theorem normalizeLoop_ok_nodup {db : Store} {issueID pfx : Str}
    {raws seen out res : List Str}
    (h : normalizeLoop db issueID pfx raws seen out = .ok res)
    (hnd : out.Nodup) (hsub : ∀ x ∈ out, x ∈ seen) : res.Nodup := by
  induction raws generalizing seen out with
  | nil =>
    simp only [normalizeLoop] at h
    cases h
    exact hnd
  | cons raw rest ih =>
    simp only [normalizeLoop] at h
    by_cases h1 : goToLower (goTrim raw) = []
    · rw [if_pos h1] at h
      exact ih h hnd hsub
    · rw [if_neg h1] at h
      by_cases h2 : issueIDMatches (goToLower (goTrim raw)) = true
      · rw [if_neg (by simp [h2])] at h
        by_cases h3 : goToLower (goTrim raw) = issueID
        · rw [if_pos h3] at h
          exact absurd h (by simp)
        · rw [if_neg h3] at h
          by_cases h4 : goToLower (goTrim raw) ∈ seen
          · rw [if_pos h4] at h
            exact ih h hnd hsub
          · rw [if_neg h4] at h
            cases h5 : projectPrefixFromIssueID (goToLower (goTrim raw)) with
            | none =>
              simp only [h5] at h
              exact absurd h (by simp)
            | some p =>
              simp only [h5] at h
              by_cases h6 : p = pfx
              · rw [if_neg (by simp [h6])] at h
                cases h7 : getIssueByID db (goToLower (goTrim raw)) with
                | none =>
                  simp only [h7] at h
                  exact absurd h (by simp)
                | some dep =>
                  simp only [h7] at h
                  by_cases h8 : prefixOfIssue dep = pfx
                  · rw [if_neg (by simp [h8])] at h
                    refine ih h ?_ ?_
                    · rw [List.nodup_append]
                      refine ⟨hnd, List.nodup_singleton _, ?_⟩
                      intro a ha ha2
                      have : a = goToLower (goTrim raw) := by simpa using ha2
                      subst this
                      exact h4 (hsub _ ha)
                    · intro x hx
                      rcases List.mem_append.1 hx with hxo | hxs
                      · exact List.mem_cons_of_mem _ (hsub _ hxo)
                      · have : x = goToLower (goTrim raw) := by simpa using hxs
                        subst this
                        exact List.mem_cons_self _ _
                  · rw [if_pos (by simp [h8])] at h
                    exact absurd h (by simp)
              · rw [if_pos (by simp [h6])] at h
                exact absurd h (by simp)
      · rw [if_pos (by simp [h2])] at h
        exact absurd h (by simp)

theorem normalizeLoop_replay {db : Store} {issueID pfx : Str} {ys : List Str}
    (hgood : ∀ x ∈ ys, goodDep db issueID pfx x) (hnd : ys.Nodup) :
    ∀ seen out, (∀ x ∈ ys, x ∉ seen) →
      normalizeLoop db issueID pfx ys seen out = .ok (out ++ ys) := by
  induction ys with
  | nil =>
    intro seen out _
    simp [normalizeLoop]
  | cons x rest ih =>
    intro seen out hdisj
    obtain ⟨hm, hne, hpfx, dep, hdep, hdeppfx⟩ := hgood x (by simp)
    have hclean : goToLower (goTrim x) = x := clean_fixed_of_matches hm
    have hxnil : x ≠ [] := by
      intro hx
      subst hx
      exact absurd hm (by decide)
    simp only [normalizeLoop, hclean]
    rw [if_neg hxnil, if_neg (by simp [hm]), if_neg hne,
      if_neg (hdisj x (by simp))]
    simp only [hpfx]
    rw [if_neg (by simp), hdep]
    dsimp only
    rw [if_neg (by simp [hdeppfx])]
    rw [ih (fun y hy => hgood y (by simp [hy])) (List.Nodup.of_cons hnd)
      (x :: seen) (out ++ [x]) ?_]
    · rw [List.append_assoc]
      rfl
    · intro y hy
      simp only [List.mem_cons, not_or]
      constructor
      · intro hyx
        subst hyx
        exact (List.nodup_cons.1 hnd).1 hy
      · exact hdisj y (by simp [hy])

theorem normalizeLoop_self_error {db : Store} {issueID pfx : Str}
    {raws : List Str} (hid : issueID ≠ [])
    (hself : ∃ raw ∈ raws, goToLower (goTrim raw) = issueID) :
    ∀ seen out, issueID ∉ seen →
      ∃ e, normalizeLoop db issueID pfx raws seen out = .error e := by
  induction raws with
  | nil =>
    obtain ⟨raw, hmem, _⟩ := hself
    cases hmem
  | cons raw rest ih =>
    intro seen out hseen
    by_cases hme : goToLower (goTrim raw) = issueID
    · simp only [normalizeLoop]
      rw [if_neg (by rw [hme]; exact hid)]
      by_cases h2 : issueIDMatches (goToLower (goTrim raw)) = true
      · rw [if_neg (by simp [h2]), if_pos hme]
        exact ⟨_, rfl⟩
      · rw [if_pos (by simp [h2])]
        exact ⟨_, rfl⟩
    · obtain ⟨x, hxm, hx⟩ := hself
      rcases List.mem_cons.1 hxm with rfl | hxr
      · exact absurd hx hme
      · have hrest : ∃ x2 ∈ rest, goToLower (goTrim x2) = issueID := ⟨x, hxr, hx⟩
        simp only [normalizeLoop]
        by_cases h1 : goToLower (goTrim raw) = []
        · rw [if_pos h1]
          exact ih hrest seen out hseen
        · rw [if_neg h1]
          by_cases h2 : issueIDMatches (goToLower (goTrim raw)) = true
          · rw [if_neg (by simp [h2]), if_neg hme]
            by_cases h4 : goToLower (goTrim raw) ∈ seen
            · rw [if_pos h4]
              exact ih hrest seen out hseen
            · rw [if_neg h4]
              cases h5 : projectPrefixFromIssueID (goToLower (goTrim raw)) with
              | none => exact ⟨_, rfl⟩
              | some p =>
                dsimp only
                by_cases h6 : p = pfx
                · rw [if_neg (by simp [h6])]
                  cases h7 : getIssueByID db (goToLower (goTrim raw)) with
                  | none => exact ⟨_, rfl⟩
                  | some dep =>
                    dsimp only
                    by_cases h8 : prefixOfIssue dep = pfx
                    · rw [if_neg (by simp [h8])]
                      refine ih hrest _ _ ?_
                      simp only [List.mem_cons, not_or]
                      exact ⟨fun hc => hme hc.symm, hseen⟩
                    · rw [if_pos (by simp [h8])]
                      exact ⟨_, rfl⟩
                · rw [if_pos (by simp [h6])]
                  exact ⟨_, rfl⟩
          · rw [if_pos (by simp [h2])]
            exact ⟨_, rfl⟩

theorem normalizeBlockedBy_ok_nodup {db : Store} {issueID pfx : Str}
    {raws res : List Str}
    (h : normalizeBlockedBy db issueID pfx raws = .ok res) : res.Nodup :=
  normalizeLoop_ok_nodup h List.nodup_nil (by simp)

theorem normalizeBlockedBy_self_error {db : Store} {issueID pfx : Str}
    {raws : List Str} (hid : issueID ≠ [])
    (hself : ∃ raw ∈ raws, goToLower (goTrim raw) = issueID) :
    ∃ e, normalizeBlockedBy db issueID pfx raws = .error e :=
  normalizeLoop_self_error hid hself [] [] (by simp)

theorem normalizeBlockedBy_idem {db : Store} {issueID pfx : Str}
    {raws res : List Str}
    (h : normalizeBlockedBy db issueID pfx raws = .ok res) :
    normalizeBlockedBy db issueID pfx res = .ok res := by
  have hgood : ∀ x ∈ res, goodDep db issueID pfx x := fun x hx =>
    (normalizeLoop_ok_elements h x hx).resolve_left (by simp)
  have hnd : res.Nodup := normalizeBlockedBy_ok_nodup h
  have h2 := normalizeLoop_replay hgood hnd [] [] (by simp)
  simpa using h2

/-! ## Service evaluation and shape lemmas -/

theorem rowMatches_of_ev {id : Str} {ev : Option Nat} {issue : Issue}
    (hid : issue.id = id) (hev : ev = none ∨ ev = some issue.version) :
    rowMatches id ev issue = true := by
  rcases hev with rfl | rfl <;> simp [rowMatches, hid]

theorem transitionUpdate_id (tgt : Str) (now : Nat) (i : Issue) :
    (transitionUpdate tgt now i).id = i.id := rfl

theorem parentUpdate_id (newParent : Option Str) (now : Nat) (i : Issue) :
    (parentUpdate newParent now i).id = i.id := rfl

theorem blockedByUpdate_id (normalized : List Str) (now : Nat) (i : Issue) :
    (blockedByUpdate normalized now i).id = i.id := rfl

theorem transition_eval {db : Store} {now : Nat} {id tgt : Str}
    {ev : Option Nat} {issue : Issue}
    (hvalid : IsValidState tgt = true)
    (hfind : getIssueByID db id = some issue)
    (hvt : ValidateTransition issue.state tgt = none)
    (hgate : tgt = sInProgress → depsAllDone db issue.blockedBy) :
    TransitionState db now id tgt ev =
      finishMutation db id ev (transitionUpdate tgt now) := by
  unfold TransitionState
  rw [if_neg (by simp [hvalid])]
  simp only [hfind, hvt]
  by_cases ht : tgt = sInProgress
  · rw [if_pos ht, unresolvedBlockedBy_all_done (hgate ht)]
    dsimp only
    rw [if_neg (by simp)]
  · rw [if_neg ht]

theorem transition_ok_shape {db : Store} {now : Nat} {id tgt : Str}
    {ev : Option Nat} {u : Issue} {db2 : Store}
    (hu : uniqueIDs db)
    (h : TransitionState db now id tgt ev = .ok (u, db2)) :
    IsValidState tgt = true ∧
    ∃ issue, getIssueByID db id = some issue ∧
      ValidateTransition issue.state tgt = none ∧
      (tgt = sInProgress → unresolvedBlockedBy db issue = .ok []) ∧
      rowMatches id ev issue = true ∧
      u = transitionUpdate tgt now issue ∧
      db2 = applyWhere db id ev (transitionUpdate tgt now) := by
  unfold TransitionState at h
  by_cases hvalid : IsValidState tgt = true
  · rw [if_neg (by simp [hvalid])] at h
    cases hfind : getIssueByID db id with
    | none =>
      simp only [hfind] at h
      exact absurd h (by simp)
    | some issue =>
      simp only [hfind] at h
      cases hvt : ValidateTransition issue.state tgt with
      | some e =>
        simp only [hvt] at h
        exact absurd h (by simp)
      | none =>
        simp only [hvt] at h
        by_cases ht : tgt = sInProgress
        · rw [if_pos ht] at h
          cases hun : unresolvedBlockedBy db issue with
          | error e =>
            simp only [hun] at h
            exact absurd h (by simp)
          | ok unres =>
            simp only [hun] at h
            by_cases hne : unres = []
            · subst hne
              rw [if_neg (by simp)] at h
              obtain ⟨issue2, hfind2, hm, hu2, hdb2⟩ :=
                finishMutation_ok_shape (transitionUpdate_id tgt now) hu h
              rw [hfind] at hfind2
              cases hfind2
              exact ⟨hvalid, issue, rfl, hvt, fun _ => hun, hm, hu2, hdb2⟩
            · rw [if_pos hne] at h
              exact absurd h (by simp)
        · rw [if_neg ht] at h
          obtain ⟨issue2, hfind2, hm, hu2, hdb2⟩ :=
            finishMutation_ok_shape (transitionUpdate_id tgt now) hu h
          rw [hfind] at hfind2
          cases hfind2
          exact ⟨hvalid, issue, rfl, hvt, fun hc => absurd hc ht, hm, hu2, hdb2⟩
  · rw [if_pos (by simp [hvalid])] at h
    exact absurd h (by simp)

/-- The new parent value the `SetParent` update writes. -/
def newParentOf (issue : Issue) (parentID : Option Str) : Option Str :=
  match expectedParentCategory issue.category, parentID with
  | some _, some p0 => some (goTrim p0)
  | _, _ => none

theorem setParent_eval {db : Store} {now : Nat} {id0 : Str}
    {parentID : Option Str} {ev : Option Nat} {issue : Issue}
    (hfind : getIssueByID db (goTrim id0) = some issue)
    (hid : goTrim id0 ≠ [])
    (hok : parentArgsOK db issue parentID) :
    SetParent db now id0 parentID ev =
      finishMutation db (goTrim id0) ev
        (parentUpdate (newParentOf issue parentID) now) := by
  unfold SetParent
  rw [if_neg hid]
  simp only [hfind]
  cases hexp : expectedParentCategory issue.category with
  | some reqCat =>
    cases parentID with
    | none =>
      unfold parentArgsOK at hok
      rw [hexp] at hok
      exact absurd hok (by simp)
    | some p0 =>
      unfold parentArgsOK at hok
      rw [hexp] at hok
      obtain ⟨hp0ne, parent, hpfind, hppfx, hpcat⟩ := hok
      simp only [hexp]
      rw [if_neg hp0ne]
      simp only [hpfind]
      rw [if_neg (by simp [hppfx]), if_neg (by simp [hpcat])]
      simp [newParentOf, hexp]
  | none =>
    cases parentID with
    | none =>
      simp only [hexp]
      simp [newParentOf, hexp]
    | some p0 =>
      unfold parentArgsOK at hok
      rw [hexp] at hok
      simp only [hexp]
      rw [if_neg (by simp [hok])]
      simp [newParentOf, hexp]

theorem setParent_ok_shape {db : Store} {now : Nat} {id0 : Str}
    {parentID : Option Str} {ev : Option Nat} {u : Issue} {db2 : Store}
    (hu : uniqueIDs db)
    (h : SetParent db now id0 parentID ev = .ok (u, db2)) :
    ∃ issue, getIssueByID db (goTrim id0) = some issue ∧
      rowMatches (goTrim id0) ev issue = true ∧
      parentArgsOK db issue parentID ∧
      u = parentUpdate (newParentOf issue parentID) now issue ∧
      db2 = applyWhere db (goTrim id0) ev
        (parentUpdate (newParentOf issue parentID) now) := by
  unfold SetParent at h
  by_cases hid : goTrim id0 = []
  · rw [if_pos hid] at h
    exact absurd h (by simp)
  · rw [if_neg hid] at h
    cases hfind : getIssueByID db (goTrim id0) with
    | none =>
      simp only [hfind] at h
      exact absurd h (by simp)
    | some issue =>
      simp only [hfind] at h
      refine ⟨issue, rfl, ?_⟩
      cases hexp : expectedParentCategory issue.category with
      | some reqCat =>
        cases parentID with
        | none =>
          simp only [hexp] at h
          exact absurd h (by simp)
        | some p0 =>
          simp only [hexp] at h
          by_cases hp0 : goTrim p0 = []
          · rw [if_pos hp0] at h
            exact absurd h (by simp)
          · rw [if_neg hp0] at h
            cases hpfind : getIssueByID db (goTrim p0) with
            | none =>
              simp only [hpfind] at h
              exact absurd h (by simp)
            | some parent =>
              simp only [hpfind] at h
              by_cases hppfx : prefixOfIssue parent = prefixOfIssue issue
              · rw [if_neg (by simp [hppfx])] at h
                by_cases hpcat : parent.category = reqCat
                · rw [if_neg (by simp [hpcat])] at h
                  obtain ⟨issue2, hfind2, hm, hu2, hdb2⟩ :=
                    finishMutation_ok_shape (parentUpdate_id _ now) hu h
                  rw [hfind] at hfind2
                  cases hfind2
                  refine ⟨hm, ?_, ?_, ?_⟩
                  · unfold parentArgsOK
                    rw [hexp]
                    exact ⟨hp0, parent, hpfind, hppfx, hpcat⟩
                  · rw [hu2]
                    simp [newParentOf, hexp]
                  · rw [hdb2]
                    simp [newParentOf, hexp]
                · rw [if_pos (by simp [hpcat])] at h
                  exact absurd h (by simp)
              · rw [if_pos (by simp [hppfx])] at h
                exact absurd h (by simp)
      | none =>
        cases parentID with
        | none =>
          simp only [hexp] at h
          obtain ⟨issue2, hfind2, hm, hu2, hdb2⟩ :=
            finishMutation_ok_shape (parentUpdate_id _ now) hu h
          rw [hfind] at hfind2
          cases hfind2
          refine ⟨hm, ?_, ?_, ?_⟩
          · unfold parentArgsOK
            rw [hexp]
            trivial
          · rw [hu2]
            simp [newParentOf, hexp]
          · rw [hdb2]
            simp [newParentOf, hexp]
        | some p0 =>
          simp only [hexp] at h
          by_cases hp0 : goTrim p0 = []
          · rw [if_neg (by simp [hp0])] at h
            obtain ⟨issue2, hfind2, hm, hu2, hdb2⟩ :=
              finishMutation_ok_shape (parentUpdate_id _ now) hu h
            rw [hfind] at hfind2
            cases hfind2
            refine ⟨hm, ?_, ?_, ?_⟩
            · unfold parentArgsOK
              rw [hexp]
              exact hp0
            · rw [hu2]
              simp [newParentOf, hexp]
            · rw [hdb2]
              simp [newParentOf, hexp]
          · rw [if_pos (by simp [hp0])] at h
            exact absurd h (by simp)

theorem setBlockedBy_eval {db : Store} {now : Nat} {id0 : Str}
    {bb : List Str} {ev : Option Nat} {issue : Issue} {norm : List Str}
    (hfind : getIssueByID db (goTrim id0) = some issue)
    (hid : goTrim id0 ≠ [])
    (hnorm : normalizeBlockedBy db issue.id (prefixOfIssue issue) bb = .ok norm) :
    SetBlockedBy db now id0 bb ev =
      finishMutation db (goTrim id0) ev (blockedByUpdate norm now) := by
  unfold SetBlockedBy
  rw [if_neg hid]
  simp only [hfind, hnorm]

theorem setBlockedBy_ok_shape {db : Store} {now : Nat} {id0 : Str}
    {bb : List Str} {ev : Option Nat} {u : Issue} {db2 : Store}
    (hu : uniqueIDs db)
    (h : SetBlockedBy db now id0 bb ev = .ok (u, db2)) :
    ∃ issue norm, getIssueByID db (goTrim id0) = some issue ∧
      normalizeBlockedBy db issue.id (prefixOfIssue issue) bb = .ok norm ∧
      rowMatches (goTrim id0) ev issue = true ∧
      u = blockedByUpdate norm now issue ∧
      db2 = applyWhere db (goTrim id0) ev (blockedByUpdate norm now) := by
  unfold SetBlockedBy at h
  by_cases hid : goTrim id0 = []
  · rw [if_pos hid] at h
    exact absurd h (by simp)
  · rw [if_neg hid] at h
    cases hfind : getIssueByID db (goTrim id0) with
    | none =>
      simp only [hfind] at h
      exact absurd h (by simp)
    | some issue =>
      simp only [hfind] at h
      cases hnorm : normalizeBlockedBy db issue.id (prefixOfIssue issue) bb with
      | error e =>
        simp only [hnorm] at h
        exact absurd h (by simp)
      | ok norm =>
        simp only [hnorm] at h
        obtain ⟨issue2, hfind2, hm, hu2, hdb2⟩ :=
          finishMutation_ok_shape (blockedByUpdate_id norm now) hu h
        rw [hfind] at hfind2
        cases hfind2
        exact ⟨issue, norm, rfl, hnorm, hm, hu2, hdb2⟩

theorem createChecks_ok_shape {db : Store} {pfx category : Str}
    {parentID : Option Str} {blockedBy : List Str} {issueID : Str}
    {cleanP : Option Str} {norm : List Str}
    (h : createChecks db pfx category parentID blockedBy issueID = .ok (cleanP, norm)) :
    normalizeBlockedBy db issueID pfx blockedBy = .ok norm ∧
    (match expectedParentCategory category, parentID with
     | some reqCat, some p0 => cleanP = some (goTrim p0) ∧ goTrim p0 ≠ [] ∧
         ∃ parent, getIssueByID db (goTrim p0) = some parent ∧
           prefixOfIssue parent = pfx ∧ parent.category = reqCat
     | some _, none => False
     | none, some p0 => cleanP = none ∧ goTrim p0 = []
     | none, none => cleanP = none) := by
  unfold createChecks at h
  cases hexp : expectedParentCategory category with
  | some reqCat =>
    cases parentID with
    | none =>
      simp only [hexp] at h
      exact absurd h (by simp)
    | some p0 =>
      simp only [hexp] at h
      by_cases hp0 : goTrim p0 = []
      · rw [if_pos hp0] at h
        exact absurd h (by simp)
      · rw [if_neg hp0] at h
        cases hpfind : getIssueByID db (goTrim p0) with
        | none =>
          simp only [hpfind] at h
          exact absurd h (by simp)
        | some parent =>
          simp only [hpfind] at h
          by_cases hppfx : prefixOfIssue parent = pfx
          · rw [if_neg (by simp [hppfx])] at h
            by_cases hpcat : parent.category = reqCat
            · rw [if_neg (by simp [hpcat])] at h
              cases hnorm : normalizeBlockedBy db issueID pfx blockedBy with
              | error e =>
                simp only [hnorm] at h
                exact absurd h (by simp)
              | ok n =>
                simp only [hnorm] at h
                cases h
                exact ⟨rfl, rfl, hp0, parent, hpfind, hppfx, hpcat⟩
            · rw [if_pos (by simp [hpcat])] at h
              exact absurd h (by simp)
          · rw [if_pos (by simp [hppfx])] at h
            exact absurd h (by simp)
  | none =>
    cases parentID with
    | none =>
      simp only [hexp] at h
      cases hnorm : normalizeBlockedBy db issueID pfx blockedBy with
      | error e =>
        simp only [hnorm] at h
        exact absurd h (by simp)
      | ok n =>
        simp only [hnorm] at h
        cases h
        exact ⟨rfl, rfl⟩
    | some p0 =>
      simp only [hexp] at h
      by_cases hp0 : goTrim p0 = []
      · rw [if_neg (by simp [hp0])] at h
        cases hnorm : normalizeBlockedBy db issueID pfx blockedBy with
        | error e =>
          simp only [hnorm] at h
          exact absurd h (by simp)
        | ok n =>
          simp only [hnorm] at h
          cases h
          exact ⟨rfl, rfl, hp0⟩
      · rw [if_pos (by simp [hp0])] at h
        exact absurd h (by simp)

theorem createAttempt_ok_shape {db : Store} {now : Nat} {draws : Nat → Nat}
    {pfx category title body : Str} {parentID : Option Str}
    {blockedBy : List Str} {u : Issue} {db2 : Store} :
    ∀ fuel k,
      createAttempt db now draws pfx category title body parentID blockedBy k fuel
        = .ok (u, db2) →
      ∃ num cleanP norm,
        createChecks db pfx category parentID blockedBy
          (pfx ++ '-' :: natDigits (randomIssueNumber num)) = .ok (cleanP, norm) ∧
        getIssueByID db (pfx ++ '-' :: natDigits (randomIssueNumber num)) = none ∧
        u = newIssueRow (pfx ++ '-' :: natDigits (randomIssueNumber num))
          category title body cleanP norm now ∧
        db2 = db ++ [u] := by
  intro fuel
  induction fuel with
  | zero =>
    intro k h
    exact absurd h (by simp [createAttempt])
  | succ fuel ih =>
    intro k h
    simp only [createAttempt] at h
    cases hc : createChecks db pfx category parentID blockedBy
        (pfx ++ '-' :: natDigits (randomIssueNumber (draws k))) with
    | error e =>
      simp only [hc] at h
      exact absurd h (by simp)
    | ok pr =>
      obtain ⟨cleanP, norm⟩ := pr
      simp only [hc] at h
      cases hg : getIssueByID db (pfx ++ '-' :: natDigits (randomIssueNumber (draws k))) with
      | some prev =>
        simp only [hg] at h
        exact ih (k + 1) h
      | none =>
        simp only [hg] at h
        rw [getIssueByID_append_fresh hg rfl] at h
        cases h
        exact ⟨draws k, cleanP, norm, hc, hg, rfl, rfl⟩

theorem create_ok_shape {db : Store} {now : Nat} {draws : Nat → Nat}
    {pfx0 category title0 body : Str} {parentID : Option Str}
    {blockedBy : List Str} {u : Issue} {db2 : Store}
    (h : CreateIssue db now draws pfx0 category title0 body parentID blockedBy
      = .ok (u, db2)) :
    projectPrefixMatches (goTrim (goToLower pfx0)) = true ∧
    IsValidCategory category = true ∧ goTrim title0 ≠ [] ∧
    ∃ num cleanP norm,
      createChecks db (goTrim (goToLower pfx0)) category parentID blockedBy
        (goTrim (goToLower pfx0) ++ '-' :: natDigits (randomIssueNumber num))
        = .ok (cleanP, norm) ∧
      getIssueByID db
        (goTrim (goToLower pfx0) ++ '-' :: natDigits (randomIssueNumber num)) = none ∧
      u = newIssueRow
        (goTrim (goToLower pfx0) ++ '-' :: natDigits (randomIssueNumber num))
        category (goTrim title0) body cleanP norm now ∧
      db2 = db ++ [u] := by
  unfold CreateIssue at h
  by_cases h1 : projectPrefixMatches (goTrim (goToLower pfx0)) = true
  · rw [if_neg (by simp [h1])] at h
    by_cases h2 : IsValidCategory category = true
    · rw [if_neg (by simp [h2])] at h
      by_cases h3 : goTrim title0 = []
      · rw [if_pos h3] at h
        exact absurd h (by simp)
      · rw [if_neg h3] at h
        exact ⟨h1, h2, h3, createAttempt_ok_shape 8 0 h⟩
    · rw [if_pos (by simp [h2])] at h
      exact absurd h (by simp)
  · rw [if_pos (by simp [h1])] at h
    exact absurd h (by simp)

theorem createChecks_trivial {db : Store} {pfx category : Str} {issueID : Str}
    (hexp : expectedParentCategory category = none) :
    createChecks db pfx category none [] issueID = .ok (none, []) := by
  unfold createChecks
  simp only [hexp]
  rfl

theorem createAttempt_all_collide {db : Store} {now : Nat} {draws : Nat → Nat}
    {pfx category title body : Str}
    (hexp : expectedParentCategory category = none) :
    ∀ fuel k,
      (∀ j, j < fuel →
        (getIssueByID db
          (pfx ++ '-' :: natDigits (randomIssueNumber (draws (k + j))))).isSome = true) →
      createAttempt db now draws pfx category title body none [] k fuel =
        .error ⟨.conflict, "failed to allocate issue number after retries".toList⟩ := by
  intro fuel
  induction fuel with
  | zero =>
    intro k _
    rfl
  | succ fuel ih =>
    intro k hcol
    simp only [createAttempt]
    rw [createChecks_trivial hexp]
    have hc := hcol 0 (by omega)
    rw [Nat.add_zero] at hc
    cases hg : getIssueByID db (pfx ++ '-' :: natDigits (randomIssueNumber (draws k))) with
    | none =>
      rw [hg] at hc
      cases hc
    | some prev =>
      simp only [hg]
      apply ih
      intro j hj
      have h2 := hcol (j + 1) (by omega)
      have h3 : k + (j + 1) = (k + 1) + j := by omega
      rw [h3] at h2
      exact h2

theorem createAttempt_parent_missing {db : Store} {now : Nat} {draws : Nat → Nat}
    {pfx category title body p0 : Str} {blockedBy : List Str} {reqCat : Str}
    (hexp : expectedParentCategory category = some reqCat)
    (hp0 : goTrim p0 ≠ []) (hmiss : getIssueByID db (goTrim p0) = none)
    (fuel k : Nat) (hf : 0 < fuel) :
    createAttempt db now draws pfx category title body (some p0) blockedBy k fuel =
      .error ⟨.notFound, "parent issue ".toList ++ goTrim p0 ++ " not found".toList⟩ := by
  cases fuel with
  | zero => omega
  | succ fuel =>
    simp only [createAttempt]
    have hchk : createChecks db pfx category (some p0) blockedBy
        (pfx ++ '-' :: natDigits (randomIssueNumber (draws k))) =
        .error ⟨.notFound, "parent issue ".toList ++ goTrim p0 ++ " not found".toList⟩ := by
      unfold createChecks
      simp only [hexp]
      rw [if_neg hp0]
      simp only [hmiss]
    rw [hchk]

/-! ## Invariant-preservation helpers -/

theorem closedOK_applyWhere {db : Store} {id : Str} {ev : Option Nat}
    {f : Issue → Issue}
    (hinv : ∀ is2 ∈ db, closedOK is2)
    (hf : ∀ i, closedOK i → closedOK (f i)) :
    ∀ is2 ∈ applyWhere db id ev f, closedOK is2 := by
  intro is2 hmem
  unfold applyWhere at hmem
  obtain ⟨i, hi, rfl⟩ := List.mem_map.1 hmem
  by_cases hm : rowMatches id ev i = true
  · rw [if_pos hm]
    exact hf i (hinv i hi)
  · rw [if_neg hm]
    exact hinv i hi

theorem closedOK_transitionUpdate (tgt : Str) (now : Nat) (i : Issue) :
    closedOK (transitionUpdate tgt now i) := by
  unfold closedOK transitionUpdate
  by_cases h : tgt = sDone ∨ tgt = sCanceled
  · simp [h]
  · simp [h]

theorem closedOK_parentUpdate {i : Issue} (h : closedOK i)
    (newParent : Option Str) (now : Nat) : closedOK (parentUpdate newParent now i) := h

theorem closedOK_blockedByUpdate {i : Issue} (h : closedOK i)
    (normalized : List Str) (now : Nat) : closedOK (blockedByUpdate normalized now i) := h

theorem closedOK_newIssueRow (issueID category title body : Str)
    (cleanParent : Option Str) (normalized : List Str) (now : Nat) :
    closedOK (newIssueRow issueID category title body cleanParent normalized now) := by
  unfold closedOK newIssueRow
  simp only []
  constructor
  · intro hc
    exact absurd rfl hc
  · intro hc
    exact absurd hc (by decide)

theorem hierarchyOK_mono_append {db extra : Store} {r : Issue}
    (h : hierarchyOK db r) : hierarchyOK (db ++ extra) r := by
  obtain ⟨h1, h2, h3⟩ := h
  refine ⟨h1, ?_, ?_⟩
  · intro hc
    obtain ⟨pid, parent, hp1, hp2, hp3, hp4⟩ := h2 hc
    exact ⟨pid, parent, hp1, getIssueByID_append_left hp2, hp3, hp4⟩
  · intro hc
    obtain ⟨pid, parent, hp1, hp2, hp3, hp4⟩ := h3 hc
    exact ⟨pid, parent, hp1, getIssueByID_append_left hp2, hp3, hp4⟩

theorem prefixOfIssue_eq_of_id {a b : Issue} (h : a.id = b.id) :
    prefixOfIssue a = prefixOfIssue b := by
  unfold prefixOfIssue
  rw [h]

theorem hierarchyOK_map {db : Store} {g : Issue → Issue} {r r2 : Issue}
    (hg_id : ∀ i, (g i).id = i.id) (hg_cat : ∀ i, (g i).category = i.category)
    (h : hierarchyOK db r)
    (hr2_par : r2.parentID = r.parentID) (hr2_cat : r2.category = r.category)
    (hr2_id : r2.id = r.id) :
    hierarchyOK (db.map g) r2 := by
  obtain ⟨h1, h2, h3⟩ := h
  refine ⟨?_, ?_, ?_⟩
  · intro hc
    rw [hr2_par]
    exact h1 (hr2_cat ▸ hc)
  · intro hc
    obtain ⟨pid, parent, hp1, hp2, hp3, hp4⟩ := h2 (hr2_cat ▸ hc)
    refine ⟨pid, g parent, ?_, ?_, ?_, ?_⟩
    · rw [hr2_par]
      exact hp1
    · rw [getIssueByID_map hg_id, hp2]
      rfl
    · rw [hg_cat]
      exact hp3
    · have e1 : prefixOfIssue (g parent) = prefixOfIssue parent :=
        prefixOfIssue_eq_of_id (hg_id parent)
      have e2 : prefixOfIssue r2 = prefixOfIssue r := prefixOfIssue_eq_of_id hr2_id
      rw [e1, e2]
      exact hp4
  · intro hc
    obtain ⟨pid, parent, hp1, hp2, hp3, hp4⟩ := h3 (hr2_cat ▸ hc)
    refine ⟨pid, g parent, ?_, ?_, ?_, ?_⟩
    · rw [hr2_par]
      exact hp1
    · rw [getIssueByID_map hg_id, hp2]
      rfl
    · rw [hg_cat]
      exact hp3
    · have e1 : prefixOfIssue (g parent) = prefixOfIssue parent :=
        prefixOfIssue_eq_of_id (hg_id parent)
      have e2 : prefixOfIssue r2 = prefixOfIssue r := prefixOfIssue_eq_of_id hr2_id
      rw [e1, e2]
      exact hp4

/-! ## Claims -/

/-- C10: for every target-state string that is not one of the five defined
states, `TransitionState` fails with invalid-input (not
invalid-state-transition), and it does so before looking up the issue: the
result is the same fixed error for every store, whether or not the issue
exists. -/
theorem c10_invalid_target_state (db : Store) (now : Nat) (id tgt : Str)
    (ev : Option Nat) (h : IsValidState tgt = false) :
    TransitionState db now id tgt ev =
      .error ⟨.invalidInput, "unknown target state ".toList ++ tgt⟩ := by
  unfold TransitionState
  rw [if_pos (by simp [h])]

theorem c10_witness :
    TransitionState dbW 0 wProj.id ("bogus".toList) none =
      .error ⟨.invalidInput, "unknown target state ".toList ++ "bogus".toList⟩ ∧
    TransitionState [] 0 wProj.id ("bogus".toList) none =
      .error ⟨.invalidInput, "unknown target state ".toList ++ "bogus".toList⟩ :=
  ⟨c10_invalid_target_state dbW 0 wProj.id ("bogus".toList) none (by decide),
   c10_invalid_target_state [] 0 wProj.id ("bogus".toList) none (by decide)⟩

/-- C1: on an existing issue whose state and target are defined and distinct,
`TransitionState` fails with invalid-state-transition exactly when the pair
is not an edge of the §4.5 table (`specStateEdges`), and on every listed
edge — when the in-progress gate and the optional expected version are
satisfied — it succeeds and increments the version by exactly 1. -/
theorem c1_transition_table_exact (db : Store) (now : Nat) (id tgt : Str)
    (ev : Option Nat) (issue : Issue)
    (hfind : getIssueByID db id = some issue)
    (hfrom : IsValidState issue.state = true) (htgt : IsValidState tgt = true)
    (hne : issue.state ≠ tgt) :
    ((issue.state, tgt) ∉ specStateEdges →
      TransitionState db now id tgt ev =
        .error ⟨.invalidStateTransition, issue.state ++ " -> ".toList ++ tgt⟩) ∧
    ((issue.state, tgt) ∈ specStateEdges →
      (tgt = sInProgress → depsAllDone db issue.blockedBy) →
      (ev = none ∨ ev = some issue.version) →
      TransitionState db now id tgt ev =
        .ok (transitionUpdate tgt now issue,
          applyWhere db id ev (transitionUpdate tgt now)) ∧
      (transitionUpdate tgt now issue).version = issue.version + 1) := by
  constructor
  · intro hmem
    unfold TransitionState
    rw [if_neg (by simp [htgt])]
    simp only [hfind, validateTransition_nonedge hfrom htgt hne hmem]
  · intro hmem hgate hev
    refine ⟨?_, rfl⟩
    rw [transition_eval htgt hfind (validateTransition_edge hfrom htgt hmem) hgate]
    exact finishMutation_run (transitionUpdate_id tgt now) hfind
      (rowMatches_of_ev (getIssueByID_id_eq hfind) hev)

theorem c1_witness :
    TransitionState dbW 3 wTaskDone.id sBlocked none =
      .error ⟨.invalidStateTransition, wTaskDone.state ++ " -> ".toList ++ sBlocked⟩ ∧
    TransitionState dbW 3 wProj.id sBlocked none =
      .ok (transitionUpdate sBlocked 3 wProj,
        applyWhere dbW wProj.id none (transitionUpdate sBlocked 3)) ∧
    (transitionUpdate sBlocked 3 wProj).version = wProj.version + 1 :=
  ⟨(c1_transition_table_exact dbW 3 wTaskDone.id sBlocked none wTaskDone
      (by decide) (by decide) (by decide) (by decide)).1 (by decide),
   (c1_transition_table_exact dbW 3 wProj.id sBlocked none wProj
      (by decide) (by decide) (by decide) (by decide)).2 (by decide)
      (fun hc => absurd hc (by decide)) (Or.inl rfl)⟩

/-- C2 counterexample: the claim says a self-transition is a no-op that
leaves the stored row unchanged (version not modified), but transitioning
the todo issue `abc-100001` of `dbW` (version 1) to its own state todo
commits a row with version 2. -/
theorem c2_counterexample :
    wProj.state = sTodo ∧ wProj.version = 1 ∧
    okVersion (TransitionState dbW 7 wProj.id sTodo none) = some 2 := by
  refine ⟨rfl, rfl, ?_⟩
  decide

/-- C2 amended: a self-transition on an existing issue is accepted by the
transition table (never invalid-state-transition), but it is not a no-op:
the row is rewritten — version increments by 1, `last_updated_at` is
refreshed, `closed_at` is recomputed for the unchanged state — and the
blocked-by gate still applies when the state is in-progress (it appears here
as the gate hypothesis), as does the optional expected-version check. -/
theorem c2_self_transition_applies_update (db : Store) (now : Nat) (id : Str)
    (ev : Option Nat) (issue : Issue)
    (hfind : getIssueByID db id = some issue)
    (hvalid : IsValidState issue.state = true)
    (hgate : issue.state = sInProgress → depsAllDone db issue.blockedBy)
    (hev : ev = none ∨ ev = some issue.version) :
    TransitionState db now id issue.state ev =
      .ok (transitionUpdate issue.state now issue,
        applyWhere db id ev (transitionUpdate issue.state now)) ∧
    (transitionUpdate issue.state now issue).version = issue.version + 1 ∧
    (transitionUpdate issue.state now issue).state = issue.state ∧
    (transitionUpdate issue.state now issue).lastUpdatedAt = now ∧
    (transitionUpdate issue.state now issue).closedAt =
      (if issue.state = sDone ∨ issue.state = sCanceled then some now else none) := by
  refine ⟨?_, rfl, rfl, rfl, rfl⟩
  rw [transition_eval hvalid hfind (validateTransition_self issue.state) hgate]
  exact finishMutation_run (transitionUpdate_id issue.state now) hfind
    (rowMatches_of_ev (getIssueByID_id_eq hfind) hev)

theorem c2_witness :
    TransitionState dbW 9 wTaskDone.id wTaskDone.state none =
      .ok (transitionUpdate wTaskDone.state 9 wTaskDone,
        applyWhere dbW wTaskDone.id none (transitionUpdate wTaskDone.state 9)) ∧
    (transitionUpdate wTaskDone.state 9 wTaskDone).version = wTaskDone.version + 1 :=
  ⟨(c2_self_transition_applies_update dbW 9 wTaskDone.id none wTaskDone
      (by decide) (by decide) (fun hc => absurd hc (by decide))
      (Or.inl rfl)).1,
   (c2_self_transition_applies_update dbW 9 wTaskDone.id none wTaskDone
      (by decide) (by decide) (fun hc => absurd hc (by decide))
      (Or.inl rfl)).2.1⟩

/-- C3: on an existing issue whose current state admits the edge to
in-progress, `TransitionState` to in-progress (i) succeeds only if every
blocked-by dependency exists and is done, (ii) fails with not-found when
some dependency row does not exist, and (iii) when all dependencies exist
but some are not done, fails with invalid-input whose message lists exactly
the unresolved ids — all of this before the expected-version check, hence
for every `ev`. -/
theorem c3_in_progress_gate (db : Store) (now : Nat) (id : Str)
    (ev : Option Nat) (issue : Issue)
    (hu : uniqueIDs db) (hfind : getIssueByID db id = some issue)
    (hedge : ValidateTransition issue.state sInProgress = none) :
    (∀ u db2, TransitionState db now id sInProgress ev = .ok (u, db2) →
      depsAllDone db issue.blockedBy) ∧
    ((∃ dep ∈ issue.blockedBy, getIssueByID db dep = none) →
      ∃ e, TransitionState db now id sInProgress ev = .error e ∧
        e.kind = .notFound) ∧
    ((∀ dep ∈ issue.blockedBy, (getIssueByID db dep).isSome = true) →
      notDoneDeps db issue.blockedBy ≠ [] →
      TransitionState db now id sInProgress ev =
        .error ⟨.invalidInput,
          "blocked_by not done: ".toList ++
            joinComma (notDoneDeps db issue.blockedBy)⟩) := by
  refine ⟨?_, ?_, ?_⟩
  · intro u db2 hok
    obtain ⟨_, issue2, hfind2, _, hgate, _⟩ := transition_ok_shape hu hok
    rw [hfind] at hfind2
    cases hfind2
    exact gate_ok_all_done (hgate rfl)
  · intro hmiss
    unfold TransitionState
    rw [if_neg (by decide)]
    simp only [hfind, hedge]
    rw [if_pos trivial]
    obtain ⟨e, he, hk⟩ := unresolvedLoop_missing hmiss []
    have he2 : unresolvedBlockedBy db issue = .error e := he
    simp only [he2]
    exact ⟨e, rfl, hk⟩
  · intro hall hne
    unfold TransitionState
    rw [if_neg (by decide)]
    simp only [hfind, hedge]
    rw [if_pos trivial, unresolvedBlockedBy_run hall]
    dsimp only
    rw [if_pos hne]

theorem c3_witness :
    TransitionState dbW 4 wTaskGated.id sInProgress none =
      .error ⟨.invalidInput,
        "blocked_by not done: ".toList ++
          joinComma (notDoneDeps dbW wTaskGated.blockedBy)⟩ :=
  (c3_in_progress_gate dbW 4 wTaskGated.id none wTaskGated (by decide)
    (by decide) (by decide)).2.2 (by decide) (by decide)

/-- C4: supplying an expected version different from the current version of
an existing issue makes each mutating operation fail: it never returns
success (the row therefore stays unchanged, since only a successful
operation commits a new store), and — whenever the operation reaches its
compare-and-swap, i.e. its other validations hold — the error is conflict. -/
theorem c4_stale_version_rejected (db : Store) (now : Nat) (v : Nat)
    (hu : uniqueIDs db) :
    (∀ id tgt issue, getIssueByID db id = some issue → v ≠ issue.version →
      (∀ u db2, TransitionState db now id tgt (some v) ≠ .ok (u, db2)) ∧
      (IsValidState tgt = true → ValidateTransition issue.state tgt = none →
       (tgt = sInProgress → depsAllDone db issue.blockedBy) →
       TransitionState db now id tgt (some v) =
         .error ⟨.conflict,
           "stale write; expected version ".toList ++ natDigits v⟩)) ∧
    (∀ id0 parentID issue, getIssueByID db (goTrim id0) = some issue →
      v ≠ issue.version →
      (∀ u db2, SetParent db now id0 parentID (some v) ≠ .ok (u, db2)) ∧
      (goTrim id0 ≠ [] → parentArgsOK db issue parentID →
       SetParent db now id0 parentID (some v) =
         .error ⟨.conflict,
           "stale write; expected version ".toList ++ natDigits v⟩)) ∧
    (∀ id0 bb norm issue, getIssueByID db (goTrim id0) = some issue →
      v ≠ issue.version →
      (∀ u db2, SetBlockedBy db now id0 bb (some v) ≠ .ok (u, db2)) ∧
      (goTrim id0 ≠ [] →
       normalizeBlockedBy db issue.id (prefixOfIssue issue) bb = .ok norm →
       SetBlockedBy db now id0 bb (some v) =
         .error ⟨.conflict,
           "stale write; expected version ".toList ++ natDigits v⟩)) := by
  refine ⟨?_, ?_, ?_⟩
  · intro id tgt issue hfind hne
    constructor
    · intro u db2 hok
      obtain ⟨_, issue2, hfind2, _, _, hm, _, _⟩ := transition_ok_shape hu hok
      rw [hfind] at hfind2
      cases hfind2
      exact hne (rowMatches_version_eq hm).symm
    · intro hvalid hvt hgate
      rw [transition_eval hvalid hfind hvt hgate]
      exact finishMutation_conflict hu hfind hne
  · intro id0 parentID issue hfind hne
    constructor
    · intro u db2 hok
      obtain ⟨issue2, hfind2, hm, _, _, _⟩ := setParent_ok_shape hu hok
      rw [hfind] at hfind2
      cases hfind2
      exact hne (rowMatches_version_eq hm).symm
    · intro hid hok
      rw [setParent_eval hfind hid hok]
      exact finishMutation_conflict hu hfind hne
  · intro id0 bb norm issue hfind hne
    constructor
    · intro u db2 hok
      obtain ⟨issue2, norm2, hfind2, _, hm, _, _⟩ := setBlockedBy_ok_shape hu hok
      rw [hfind] at hfind2
      cases hfind2
      exact hne (rowMatches_version_eq hm).symm
    · intro hid hnorm
      rw [setBlockedBy_eval hfind hid hnorm]
      exact finishMutation_conflict hu hfind hne

theorem c4_witness :
    TransitionState dbW 2 wProj.id sBlocked (some 5) =
      .error ⟨.conflict, "stale write; expected version ".toList ++ natDigits 5⟩ ∧
    SetParent dbW 2 wProj.id none (some 5) =
      .error ⟨.conflict, "stale write; expected version ".toList ++ natDigits 5⟩ ∧
    SetBlockedBy dbW 2 wProj.id [] (some 5) =
      .error ⟨.conflict, "stale write; expected version ".toList ++ natDigits 5⟩ :=
  ⟨((c4_stale_version_rejected dbW 2 5 (by decide)).1 wProj.id sBlocked wProj
      (by decide) (by decide)).2 (by decide) (by decide)
      (fun hc => absurd hc (by decide)),
   ((c4_stale_version_rejected dbW 2 5 (by decide)).2.1 wProj.id none wProj
      (by decide) (by decide)).2 (by decide) trivial,
   ((c4_stale_version_rejected dbW 2 5 (by decide)).2.2 wProj.id [] [] wProj
      (by decide) (by decide)).2 (by decide) rfl⟩

/-- C6: `closed_at` is non-null exactly on states done and canceled, and
this invariant is established by `CreateIssue` (todo with null `closed_at`)
and preserved by every mutation: a transition sets `closed_at` to the
current time when entering done or canceled and clears it to null on every
other resulting state, while `SetParent` and `SetBlockedBy` change neither
the state nor `closed_at` of the updated row. -/
theorem c6_closed_at_iff_closed_state (db : Store) (now : Nat)
    (hu : uniqueIDs db) (hinv : ∀ is2 ∈ db, closedOK is2) :
    (∀ draws pfx0 category title0 body parentID blockedBy u db2,
      CreateIssue db now draws pfx0 category title0 body parentID blockedBy
        = .ok (u, db2) →
      u.state = sTodo ∧ u.closedAt = none ∧ ∀ is2 ∈ db2, closedOK is2) ∧
    (∀ id tgt ev u db2,
      TransitionState db now id tgt ev = .ok (u, db2) →
      u.state = tgt ∧
      u.closedAt = (if tgt = sDone ∨ tgt = sCanceled then some now else none) ∧
      ∀ is2 ∈ db2, closedOK is2) ∧
    (∀ id0 parentID ev u db2 issue,
      getIssueByID db (goTrim id0) = some issue →
      SetParent db now id0 parentID ev = .ok (u, db2) →
      u.state = issue.state ∧ u.closedAt = issue.closedAt ∧
      ∀ is2 ∈ db2, closedOK is2) ∧
    (∀ id0 bb ev u db2 issue,
      getIssueByID db (goTrim id0) = some issue →
      SetBlockedBy db now id0 bb ev = .ok (u, db2) →
      u.state = issue.state ∧ u.closedAt = issue.closedAt ∧
      ∀ is2 ∈ db2, closedOK is2) := by
  refine ⟨?_, ?_, ?_, ?_⟩
  · intro draws pfx0 category title0 body parentID blockedBy u db2 h
    obtain ⟨_, _, _, num, cleanP, norm, _, _, hu_eq, hdb2⟩ := create_ok_shape h
    subst hu_eq
    subst hdb2
    refine ⟨rfl, rfl, ?_⟩
    intro is2 hmem
    rcases List.mem_append.1 hmem with hold | hnew
    · exact hinv is2 hold
    · rw [List.mem_singleton.1 hnew]
      exact closedOK_newIssueRow _ _ _ _ _ _ _
  · intro id tgt ev u db2 h
    obtain ⟨_, issue, hfind, _, _, _, hu_eq, hdb2⟩ := transition_ok_shape hu h
    subst hu_eq
    subst hdb2
    refine ⟨rfl, rfl, ?_⟩
    exact closedOK_applyWhere hinv (fun i _ => closedOK_transitionUpdate tgt now i)
  · intro id0 parentID ev u db2 issue hfind h
    obtain ⟨issue2, hfind2, _, _, hu_eq, hdb2⟩ := setParent_ok_shape hu h
    rw [hfind] at hfind2
    cases hfind2
    subst hu_eq
    subst hdb2
    refine ⟨rfl, rfl, ?_⟩
    exact closedOK_applyWhere hinv (fun i hc => closedOK_parentUpdate hc _ now)
  · intro id0 bb ev u db2 issue hfind h
    obtain ⟨issue2, norm, hfind2, _, _, hu_eq, hdb2⟩ := setBlockedBy_ok_shape hu h
    rw [hfind] at hfind2
    cases hfind2
    subst hu_eq
    subst hdb2
    refine ⟨rfl, rfl, ?_⟩
    exact closedOK_applyWhere hinv (fun i hc => closedOK_blockedByUpdate hc norm now)

theorem applyWhere_eq_map (db : Store) (id : Str) (ev : Option Nat)
    (f : Issue → Issue) : applyWhere db id ev f = db.map (updWhere id ev f) := rfl

theorem updWhere_id {f : Issue → Issue} (hf : ∀ i, (f i).id = i.id)
    (id : Str) (ev : Option Nat) : ∀ i, (updWhere id ev f i).id = i.id := by
  intro i
  unfold updWhere
  by_cases hr : rowMatches id ev i = true
  · rw [if_pos hr]
    exact hf i
  · rw [if_neg hr]

theorem updWhere_cat {f : Issue → Issue} (hf : ∀ i, (f i).category = i.category)
    (id : Str) (ev : Option Nat) : ∀ i, (updWhere id ev f i).category = i.category := by
  intro i
  unfold updWhere
  by_cases hr : rowMatches id ev i = true
  · rw [if_pos hr]
    exact hf i
  · rw [if_neg hr]

theorem updWhere_not {f : Issue → Issue} {id : Str} {ev : Option Nat}
    {i : Issue} (h : rowMatches id ev i = false) : updWhere id ev f i = i := by
  unfold updWhere
  rw [if_neg (by simp [h])]

theorem updWhere_yes {f : Issue → Issue} {id : Str} {ev : Option Nat}
    {i : Issue} (h : rowMatches id ev i = true) : updWhere id ev f i = f i := by
  unfold updWhere
  rw [if_pos h]

/-- C5: every committed row keeps the hierarchy invariant of §3 across
`CreateIssue` and `SetParent`: when the store satisfies it and the operation
commits, every row of the resulting store satisfies it again — in
particular a violating input can never produce a committed row, since a
violating call never returns success. -/
theorem c5_hierarchy_invariant_preserved (db : Store) (now : Nat)
    (hu : uniqueIDs db) (hinv : ∀ is2 ∈ db, hierarchyOK db is2) :
    (∀ draws pfx0 category title0 body parentID blockedBy u db2,
      CreateIssue db now draws pfx0 category title0 body parentID blockedBy
        = .ok (u, db2) →
      ∀ is2 ∈ db2, hierarchyOK db2 is2) ∧
    (∀ id0 parentID ev u db2,
      SetParent db now id0 parentID ev = .ok (u, db2) →
      ∀ is2 ∈ db2, hierarchyOK db2 is2) := by
  constructor
  · intro draws pfx0 category title0 body parentID blockedBy u db2 h
    obtain ⟨hpm, hcat, htitle, num, cleanP, norm, hchk, hfresh, hu_eq, hdb2⟩ :=
      create_ok_shape h
    obtain ⟨hnorm, hpar⟩ := createChecks_ok_shape hchk
    subst hdb2
    have hid_u : u.id = goTrim (goToLower pfx0) ++ '-' ::
        natDigits (randomIssueNumber num) := by
      rw [hu_eq]
      rfl
    have hcat_u : u.category = category := by
      rw [hu_eq]
      rfl
    have hpar_u : u.parentID = cleanP := by
      rw [hu_eq]
      rfl
    have hpfxu : prefixOfIssue u = goTrim (goToLower pfx0) := by
      unfold prefixOfIssue
      rw [hid_u, prefixFromID_construct hpm (natDigits_ne_nil _) (natDigits_all _)]
      rfl
    intro is2 hmem
    rcases List.mem_append.1 hmem with hold | hnew
    · exact hierarchyOK_mono_append (hinv is2 hold)
    · rw [List.mem_singleton.1 hnew]
      cases hexp : expectedParentCategory category with
      | some reqCat =>
        cases parentID with
        | none =>
          rw [hexp] at hpar
          dsimp only at hpar
        | some p0 =>
          rw [hexp] at hpar
          dsimp only at hpar
          obtain ⟨hcleanP, hp0ne, parent, hpfind, hppfx, hpcat⟩ := hpar
          refine ⟨?_, ?_, ?_⟩
          · intro hc
            rw [hcat_u] at hc
            subst hc
            exact Option.noConfusion
              ((rfl : expectedParentCategory cProject = none).symm.trans hexp)
          · intro hc
            rw [hcat_u] at hc
            subst hc
            have hreq : reqCat = cProject :=
              (Option.some.inj
                ((rfl : expectedParentCategory cWorkstream = some cProject).symm.trans
                  hexp)).symm
            refine ⟨goTrim p0, parent, ?_, ?_, ?_, ?_⟩
            · rw [hpar_u, hcleanP]
            · exact getIssueByID_append_left hpfind
            · rw [hpcat, hreq]
            · rw [hpfxu]
              exact hppfx
          · intro hc
            rw [hcat_u] at hc
            subst hc
            have hreq : reqCat = cWorkstream :=
              (Option.some.inj
                ((rfl : expectedParentCategory cTask = some cWorkstream).symm.trans
                  hexp)).symm
            refine ⟨goTrim p0, parent, ?_, ?_, ?_, ?_⟩
            · rw [hpar_u, hcleanP]
            · exact getIssueByID_append_left hpfind
            · rw [hpcat, hreq]
            · rw [hpfxu]
              exact hppfx
      | none =>
        have hcleanP : cleanP = none := by
          cases parentID with
          | none =>
            rw [hexp] at hpar
            dsimp only at hpar
            exact hpar
          | some p0 =>
            rw [hexp] at hpar
            dsimp only at hpar
            exact hpar.1
        refine ⟨?_, ?_, ?_⟩
        · intro _
          rw [hpar_u, hcleanP]
        · intro hc
          rw [hcat_u] at hc
          subst hc
          exact Option.noConfusion
            ((rfl : expectedParentCategory cWorkstream = some cProject).symm.trans hexp)
        · intro hc
          rw [hcat_u] at hc
          subst hc
          exact Option.noConfusion
            ((rfl : expectedParentCategory cTask = some cWorkstream).symm.trans hexp)
  · intro id0 parentID ev u db2 h
    obtain ⟨issue, hfind, hm, hok, hu_eq, hdb2⟩ := setParent_ok_shape hu h
    subst hdb2
    rw [applyWhere_eq_map]
    have hg_id := updWhere_id (parentUpdate_id (newParentOf issue parentID) now)
      (goTrim id0) ev
    have hg_cat := updWhere_cat
      (f := parentUpdate (newParentOf issue parentID) now) (fun _ => rfl)
      (goTrim id0) ev
    intro is2 hmem
    obtain ⟨i, hi, hgi⟩ := List.mem_map.1 hmem
    subst hgi
    by_cases hr : rowMatches (goTrim id0) ev i = true
    · have hieq : i = issue :=
        uniqueIDs_eq hu hi (getIssueByID_mem hfind)
          ((rowMatches_id_eq hr).trans (getIssueByID_id_eq hfind).symm)
      subst hieq
      rw [updWhere_yes hr]
      cases hexp : expectedParentCategory i.category with
      | some reqCat =>
        cases parentID with
        | none =>
          unfold parentArgsOK at hok
          rw [hexp] at hok
          exact hok.elim
        | some p0 =>
          unfold parentArgsOK at hok
          rw [hexp] at hok
          obtain ⟨hp0ne, parent, hpfind, hppfx, hpcat⟩ := hok
          have hnp : newParentOf i (some p0) = some (goTrim p0) := by
            unfold newParentOf
            rw [hexp]
          refine ⟨?_, ?_, ?_⟩
          · intro hc
            have hc2 : i.category = cProject := hc
            rw [hc2] at hexp
            exact Option.noConfusion
              ((rfl : expectedParentCategory cProject = none).symm.trans hexp)
          · intro hc
            have hc2 : i.category = cWorkstream := hc
            rw [hc2] at hexp
            have hreq : reqCat = cProject :=
              (Option.some.inj
                ((rfl : expectedParentCategory cWorkstream = some cProject).symm.trans
                  hexp)).symm
            refine ⟨goTrim p0, updWhere (goTrim id0) ev
              (parentUpdate (newParentOf i (some p0)) now) parent, ?_, ?_, ?_, ?_⟩
            · show newParentOf i (some p0) = some (goTrim p0)
              exact hnp
            · rw [getIssueByID_map hg_id, hpfind]
              rfl
            · rw [hg_cat parent, hpcat, hreq]
            · have e1 := prefixOfIssue_eq_of_id (hg_id parent)
              have e2 : prefixOfIssue (parentUpdate (newParentOf i (some p0)) now i)
                  = prefixOfIssue i := prefixOfIssue_eq_of_id rfl
              rw [e1, e2]
              exact hppfx
          · intro hc
            have hc2 : i.category = cTask := hc
            rw [hc2] at hexp
            have hreq : reqCat = cWorkstream :=
              (Option.some.inj
                ((rfl : expectedParentCategory cTask = some cWorkstream).symm.trans
                  hexp)).symm
            refine ⟨goTrim p0, updWhere (goTrim id0) ev
              (parentUpdate (newParentOf i (some p0)) now) parent, ?_, ?_, ?_, ?_⟩
            · show newParentOf i (some p0) = some (goTrim p0)
              exact hnp
            · rw [getIssueByID_map hg_id, hpfind]
              rfl
            · rw [hg_cat parent, hpcat, hreq]
            · have e1 := prefixOfIssue_eq_of_id (hg_id parent)
              have e2 : prefixOfIssue (parentUpdate (newParentOf i (some p0)) now i)
                  = prefixOfIssue i := prefixOfIssue_eq_of_id rfl
              rw [e1, e2]
              exact hppfx
      | none =>
        have hnp : newParentOf i parentID = none := by
          unfold newParentOf
          rw [hexp]
        refine ⟨?_, ?_, ?_⟩
        · intro _
          show newParentOf i parentID = none
          exact hnp
        · intro hc
          have hc2 : i.category = cWorkstream := hc
          rw [hc2] at hexp
          exact Option.noConfusion
            ((rfl : expectedParentCategory cWorkstream = some cProject).symm.trans hexp)
        · intro hc
          have hc2 : i.category = cTask := hc
          rw [hc2] at hexp
          exact Option.noConfusion
            ((rfl : expectedParentCategory cTask = some cWorkstream).symm.trans hexp)
    · rw [updWhere_not (by simpa using hr)]
      exact hierarchyOK_map hg_id hg_cat (hinv i hi) rfl rfl rfl

theorem c6_witness :
    (transitionUpdate sTodo 5 wTaskDone).state = sTodo ∧
    (transitionUpdate sTodo 5 wTaskDone).closedAt =
      (if sTodo = sDone ∨ sTodo = sCanceled then some 5 else none) ∧
    closedOK (transitionUpdate sTodo 5 wTaskDone) := by
  have h := (c6_closed_at_iff_closed_state dbW 5 (by decide) (by decide)).2.1
    wTaskDone.id sTodo none (transitionUpdate sTodo 5 wTaskDone)
    (applyWhere dbW wTaskDone.id none (transitionUpdate sTodo 5)) (by decide)
  refine ⟨h.1, h.2.1, ?_⟩
  apply h.2.2
  decide

theorem dbW_hierarchy : ∀ is2 ∈ dbW, hierarchyOK dbW is2 := by
  intro is2 hmem
  rcases (by simpa [dbW] using hmem :
      is2 = wProj ∨ is2 = wWS ∨ is2 = wTaskTodo ∨ is2 = wTaskDone ∨
      is2 = wTaskGated ∨ is2 = wTaskMissingDep) with
    rfl | rfl | rfl | rfl | rfl | rfl
  · exact ⟨fun _ => rfl, fun hc => absurd hc (by decide),
      fun hc => absurd hc (by decide)⟩
  · exact ⟨fun hc => absurd hc (by decide),
      fun _ => ⟨("abc-100001".toList), wProj, by decide, by decide, by decide,
        by decide⟩,
      fun hc => absurd hc (by decide)⟩
  · exact ⟨fun hc => absurd hc (by decide), fun hc => absurd hc (by decide),
      fun _ => ⟨("abc-100002".toList), wWS, by decide, by decide, by decide,
        by decide⟩⟩
  · exact ⟨fun hc => absurd hc (by decide), fun hc => absurd hc (by decide),
      fun _ => ⟨("abc-100002".toList), wWS, by decide, by decide, by decide,
        by decide⟩⟩
  · exact ⟨fun hc => absurd hc (by decide), fun hc => absurd hc (by decide),
      fun _ => ⟨("abc-100002".toList), wWS, by decide, by decide, by decide,
        by decide⟩⟩
  · exact ⟨fun hc => absurd hc (by decide), fun hc => absurd hc (by decide),
      fun _ => ⟨("abc-100002".toList), wWS, by decide, by decide, by decide,
        by decide⟩⟩

theorem c5_witness : hierarchyOK (dbW ++ [wNewWS]) wNewWS :=
  (c5_hierarchy_invariant_preserved dbW 3 (by decide) dbW_hierarchy).1
    (fun _ => 42) ("abc".toList) cWorkstream [Char.ofNat 84] [] (some wProj.id) []
    wNewWS (dbW ++ [wNewWS]) (by decide) wNewWS (by decide)

/-- C7 counterexample: the claim says a list containing the same dependency
id more than once makes the operation fail, but normalization of the list
`[abc-100003, abc-100003]` against `dbW` succeeds, silently deduplicating to
`[abc-100003]` (the `seen` set of `normalizeBlockedByTx` skips duplicates
instead of rejecting them). -/
theorem c7_counterexample :
    normalizeBlockedBy dbW ("abc-900000".toList) ("abc".toList)
      [("abc-100003".toList), ("abc-100003".toList)] =
      .ok [("abc-100003".toList)] := by
  decide

/-- C7 amended: a self-referential entry (one whose trimmed, lowercased form
equals the issue id) always makes normalization fail, but duplicate entries
are not rejected: they are silently deduplicated, so every successful
normalization returns a duplicate-free list. -/
theorem c7_normalize_self_rejected_dups_deduped (db : Store)
    (issueID pfx : Str) (hid : issueID ≠ []) :
    (∀ raws, (∃ raw ∈ raws, goToLower (goTrim raw) = issueID) →
      ∃ e, normalizeBlockedBy db issueID pfx raws = .error e) ∧
    (∀ raws res, normalizeBlockedBy db issueID pfx raws = .ok res → res.Nodup) :=
  ⟨fun _ hself => normalizeBlockedBy_self_error hid hself,
   fun _ _ h => normalizeBlockedBy_ok_nodup h⟩

theorem c7_witness :
    normOK (normalizeBlockedBy dbW ("abc-100005".toList) ("abc".toList)
      [("abc-100005".toList)]) = false ∧
    ([("abc-100003".toList)] : List Str).Nodup := by
  constructor
  · obtain ⟨e, he⟩ := (c7_normalize_self_rejected_dups_deduped dbW
        ("abc-100005".toList) ("abc".toList) (by decide)).1
        [("abc-100005".toList)] ⟨("abc-100005".toList), by decide, by decide⟩
    rw [he]
    rfl
  · exact (c7_normalize_self_rejected_dups_deduped dbW ("abc-100005".toList)
      ("abc".toList) (by decide)).2
      [("abc-100003".toList), ("abc-100003".toList)] [("abc-100003".toList)]
      (by decide)

/-- C8: normalization is idempotent: whenever it succeeds with output `res`
(against the same issue, project and store state), running it again on
`res` succeeds and returns `res` itself, in the same order. -/
theorem c8_normalization_idempotent (db : Store) (issueID pfx : Str)
    (raws res : List Str)
    (h : normalizeBlockedBy db issueID pfx raws = .ok res) :
    normalizeBlockedBy db issueID pfx res = .ok res :=
  normalizeBlockedBy_idem h

theorem c8_witness :
    normalizeBlockedBy dbW ("abc-100005".toList) ("abc".toList)
      [("abc-100003".toList), ("abc-100004".toList)] =
      .ok [("abc-100003".toList), ("abc-100004".toList)] :=
  c8_normalization_idempotent dbW ("abc-100005".toList) ("abc".toList)
    [(" ABC-100003  ".toList), ("abc-100004".toList), ("abc-100003".toList)]
    [("abc-100003".toList), ("abc-100004".toList)] (by decide)

/-- C9: the id allocator always draws a number in 100000..999999; the
creation loop makes at most 8 attempts (its fuel is the literal 8) and
retries only on a unique-constraint collision: if all 8 drawn ids collide
the call fails with conflict, while a non-collision error (here: a missing
parent) is returned immediately, identically for every draw oracle, i.e. is
never retried. -/
theorem c9_id_allocation :
    (∀ d, 100000 ≤ randomIssueNumber d ∧ randomIssueNumber d ≤ 999999) ∧
    (∀ (db : Store) (now : Nat) (draws : Nat → Nat)
        (pfx0 category title0 body : Str),
      projectPrefixMatches (goTrim (goToLower pfx0)) = true →
      IsValidCategory category = true →
      expectedParentCategory category = none →
      goTrim title0 ≠ [] →
      (∀ k, k < 8 → (getIssueByID db
        (goTrim (goToLower pfx0) ++ '-' ::
          natDigits (randomIssueNumber (draws k)))).isSome = true) →
      CreateIssue db now draws pfx0 category title0 body none [] =
        .error ⟨.conflict, "failed to allocate issue number after retries".toList⟩) ∧
    (∀ (db : Store) (now : Nat) (draws : Nat → Nat)
        (pfx0 category title0 body p0 : Str) (blockedBy : List Str)
        (reqCat : Str),
      projectPrefixMatches (goTrim (goToLower pfx0)) = true →
      IsValidCategory category = true →
      goTrim title0 ≠ [] →
      expectedParentCategory category = some reqCat →
      goTrim p0 ≠ [] → getIssueByID db (goTrim p0) = none →
      CreateIssue db now draws pfx0 category title0 body (some p0) blockedBy =
        .error ⟨.notFound,
          "parent issue ".toList ++ goTrim p0 ++ " not found".toList⟩) := by
  refine ⟨?_, ?_, ?_⟩
  · intro d
    unfold randomIssueNumber
    have hlt : d % 900000 < 900000 := Nat.mod_lt _ (by omega)
    omega
  · intro db now draws pfx0 category title0 body hpm hcat hexp htitle hcol
    unfold CreateIssue
    rw [if_neg (by simp [hpm]), if_neg (by simp [hcat]), if_neg htitle]
    apply createAttempt_all_collide hexp
    intro j hj
    have h2 := hcol j hj
    simpa using h2
  · intro db now draws pfx0 category title0 body p0 blockedBy reqCat hpm hcat
      htitle hexp hp0 hmiss
    unfold CreateIssue
    rw [if_neg (by simp [hpm]), if_neg (by simp [hcat]), if_neg htitle]
    exact createAttempt_parent_missing hexp hp0 hmiss 8 0 (by omega)

theorem c9_witness :
    (100000 ≤ randomIssueNumber 5 ∧ randomIssueNumber 5 ≤ 999999) ∧
    CreateIssue dbW 0 (fun _ => 1) ("abc".toList) cProject [Char.ofNat 84] []
      none [] =
      .error ⟨.conflict, "failed to allocate issue number after retries".toList⟩ :=
  ⟨c9_id_allocation.1 5,
   c9_id_allocation.2.1 dbW 0 (fun _ => 1) ("abc".toList) cProject
     [Char.ofNat 84] [] (by decide) (by decide) (by decide) (by decide)
     (fun _ _ => by
       have hsome : (getIssueByID dbW (goTrim (goToLower ("abc".toList)) ++ '-' ::
           natDigits (randomIssueNumber 1))).isSome = true := by decide
       exact hsome)⟩

end IssueTracker
